import Mathlib

/-!
A verification development for the `Options` command-line flag library
(`src/include/Options.h`): a shallow embedding of its data model and
operations, followed by theorems settling the specification's claims.

Modelling conventions:
* C++ `std::string` is modelled as Lean `String`; the library only ever
  handles byte-per-character text, on which C++ byte positions and Lean
  character positions coincide.
* Bound variables of the caller are modelled by an association list
  `Env` from variable identifiers to values `Val`; a `std::function`
  setter capturing a variable by reference becomes a `Setter` datum
  naming the captured variable.
* The generic parameter `T` of `Add<T>` ranges over the value universe
  `Val` (`bool`, `std::string`, `unsigned`, and `int` standing for every
  remaining type handled by the primary templates).
* Machine arithmetic is `Nat`/`Int` with explicit wraparound:
  `size_t`/`unsigned` subtraction uses `wrapSub` (mod `2^64` resp.
  `2^32`), and the `int` loop counter of the usage word-wrap loop uses
  `int32of` for the implementation-defined unsigned-to-int conversion.
* `struct option op;` in `Add`/`AddSwitch` leaves all fields
  indeterminate.  `uninitOption` is the benign reading of that stack
  garbage (null name, zero code); theorems touching the uninitialised
  path only rely on effects that are determinate in the C++ source.
-/

/-- The universe of bound-variable values: the instantiations of the
`Add<T>` template that the claims are about.  `vInt` stands for the
generic remaining case of `get_default`'s primary template. -/
inductive Val
  | vBool (b : Bool)
  | vStr (s : String)
  | vNat (n : Nat)
  | vInt (i : Int)
  deriving DecidableEq, Repr

/-- The type tag of a value, recording which `set<T>` instantiation a
setter was bound with. -/
inductive ValTy
  | tBool
  | tStr
  | tNat
  | tInt
  deriving DecidableEq, Repr

/-- Type tag of a `Val`. -/
def Val.ty : Val → ValTy
  | .vBool _ => .tBool
  | .vStr _ => .tStr
  | .vNat _ => .tNat
  | .vInt _ => .tInt

/-- The caller's bound variables: an association list from variable
identifier to current value. -/
abbrev Env := List (Nat × Val)

/-- Read a bound variable. -/
def envGet (e : Env) (v : Nat) : Option Val := e.lookup v

/-- Assign a bound variable (replace its binding, or create it). -/
def envSet : Env → Nat → Val → Env
  | [], v, x => [(v, x)]
  | (k, y) :: rest, v, x =>
    if k = v then (v, x) :: rest else (k, y) :: envSet rest v x

/-- One `struct option` record as filled in by `add_entry`
(`flag` is always `NULL` in the source and is omitted). -/
structure GetoptOption where
  name : Option String
  has_arg : Nat
  val : Int
  deriving DecidableEq, Repr

/-- The benign reading of the default-initialised `struct option op;`
whose fields the C++ source leaves indeterminate. -/
def uninitOption : GetoptOption := ⟨none, 0, 0⟩

/-- A type-erased setter, keyed by option code in the `setters` map:
`assign` is `std::bind(&Options::set<T>, ...)` capturing a typed
variable, `toggle` is the `AddSwitch` lambda `var = !var`. -/
inductive Setter
  | assign (varId : Nat) (ty : ValTy)
  | toggle (varId : Nat)
  deriving DecidableEq, Repr

/-- Classify iostream whitespace (the default `skipws` behaviour of
formatted extraction). -/
def isWs (c : Char) : Bool := c = ' ' ∨ c = '\t' ∨ c = '\n' ∨ c = '\r'

/-- Decimal value of a digit run. -/
def digitsToNat (l : List Char) : Nat :=
  l.foldl (fun a c => a * 10 + (c.toNat - 48)) 0

/-- The integer that `operator>>` reads from the front of a string:
skip whitespace, optional sign, a nonempty digit run; `none` when
extraction fails.  (Stream extraction is modelled on well-formed
decimal inputs; no claim exercises locale or overflow corners.) -/
def extractInt (s : String) : Option Int :=
  let l := s.data.dropWhile isWs
  let p : Int × List Char :=
    match l with
    | '-' :: rest => (-1, rest)
    | '+' :: rest => (1, rest)
    | rest => (1, rest)
  let ds := p.2.takeWhile Char.isDigit
  if ds.isEmpty then none else some (p.1 * (digitsToNat ds : Int))

/-- Clamp to the `int` range, as C++11 extraction does on overflow. -/
def clampInt32 (i : Int) : Int :=
  if i < -2147483648 then -2147483648
  else if i > 2147483647 then 2147483647 else i

/-- `Options::set<T>(var, optarg)`: `std::stringstream ss(optarg); ss >> var;`
with the `std::string` specialisation copying verbatim.  Failed
extraction writes a zero value (C++11 semantics). -/
def Options.set (ty : ValTy) (s : String) : Val :=
  match ty with
  | .tStr => .vStr s
  | .tNat =>
    match extractInt s with
    | none => .vNat 0
    | some i => .vNat (((i % 4294967296 + 4294967296) % 4294967296).toNat)
  | .tInt =>
    match extractInt s with
    | none => .vInt 0
    | some i => .vInt (clampInt32 i)
  | .tBool =>
    match extractInt s with
    | none => .vBool false
    | some i => .vBool (i != 0)

/-- Run one setter on the environment with the raw argument text. -/
def applySetter : Setter → Env → String → Env
  | .assign v ty, env, s => envSet env v (Options.set ty s)
  | .toggle v, env, _ =>
    match envGet env v with
    | some (.vBool b) => envSet env v (.vBool (!b))
    | _ => envSet env v (.vBool true)

/-- The `Options` instance state: the C++ data members.  `std::set` and
the two `std::map`s are modelled as ordered association lists; only
membership and lookup of `long_flags`/`setters` are ever observed, while
the key order of `usage` is observable through `Usage()` and is kept
sorted exactly as `std::map` iteration is. -/
structure Options where
  IndentFlag : Nat
  IndentDescription : Nat
  Header : String
  long_flags : List String
  options : List GetoptOption
  setters : List (Int × Setter)
  usage : List (String × List String)
  optval : Int
  optstr : String
  deriving DecidableEq, Repr

/-- The `Options()` constructor:
`IndentFlag(2), IndentDescription(18), optval(256)`. -/
def Options.init : Options :=
  ⟨2, 18, "", [], [], [], [], 256, ""⟩

/-- `std::set<std::string>::insert`: membership-preserving insert
(iteration order of the set is never observed). -/
def strInsert (l : List String) (s : String) : List String :=
  if s ∈ l then l else l ++ [s]

/-- `std::map<int, ...>::operator[]=`: replace the binding if the key
is present, otherwise add it (iteration order never observed). -/
def setterInsert : List (Int × Setter) → Int → Setter → List (Int × Setter)
  | [], k, v => [(k, v)]
  | (k', v') :: rest, k, v =>
    if k' = k then (k, v) :: rest else (k', v') :: setterInsert rest k v

/-- Lexicographic (character-wise) strict order on character lists:
the `std::less<std::string>` byte order, which on the byte-per-character
text involved coincides with character order. -/
def charListLt : List Char → List Char → Bool
  | _, [] => false
  | [], _ :: _ => true
  | a :: as, b :: bs =>
    if a.toNat < b.toNat then true
    else if b.toNat < a.toNat then false
    else charListLt as bs

/-- `std::less<std::string>`. -/
def strLt (a b : String) : Bool := charListLt a.data b.data

/-- `usage[group].push_back(block)` on `std::map<std::string, vector>`:
append to the group's vector, inserting the group at its sorted key
position when absent (`std::map` keeps keys in `std::less` order). -/
def usageInsert : List (String × List String) → String → String → List (String × List String)
  | [], g, b => [(g, [b])]
  | (k, bs) :: rest, g, b =>
    if k = g then (k, bs ++ [b]) :: rest
    else if strLt g k then (g, [b]) :: (k, bs) :: rest
    else (k, bs) :: usageInsert rest g b

/-- A run of `n` spaces, `std::string(n, ' ')`. -/
def spacesStr (n : Nat) : String := String.mk (List.replicate n ' ')

/-- Wrapping subtraction `(a - b) mod m` of unsigned arithmetic. -/
def wrapSub (m a b : Nat) : Nat := (a % m + m - b % m) % m

/-- The implementation-defined conversion of a 32-bit unsigned value to
`int` (two's complement wrap, as on every supported platform). -/
def int32of (n : Nat) : Int :=
  let m := n % 4294967296
  if m < 2147483648 then (m : Int) else (m : Int) - 4294967296

/-- The `size_t` reading of an `int` loop counter (conversion of `i` in
`i < desc.size()` and `desc.substr(i, ...)`). -/
def sizeT (i : Int) : Nat := (i % (18446744073709551616 : Int)).toNat

/-- The `while (desc.substr(i, 1) == " ") ++i;` space skip: advance `p`
past the run of spaces starting at it (the position after the leading
spaces of the suffix at `p`). -/
def skipSp (d : List Char) (p : Nat) : Nat :=
  p + ((d.drop p).takeWhile (fun c => c = ' ')).length

/-- The word-wrap loop
`for (int i = 0; i < desc.size(); i += column_width)` of `add_entry`.
`fuel` bounds the iteration count: `d.length + 2` covers every
terminating execution of the C++ loop (each iteration with
`0 < column_width` and no wraparound advances `i` by at least one while
`0 ≤ i < d.length`, and a wrapped increment fails the next bound
check); when `column_width = 0` the C++ loop does not terminate, a
configuration no claim touches. -/
def wrapEmit (d : List Char) (descPos cw : Nat) : Nat → Int → String
  | 0, _ => ""
  | fuel + 1, i =>
    if sizeT i < d.length then
      let j := skipSp d (sizeT i)
      if (j + cw) % 4294967296 < d.length then
        String.mk ((d.drop j).take cw) ++ "\n" ++ spacesStr descPos ++
          wrapEmit d descPos cw fuel (int32of (j + cw))
      else
        String.mk (d.drop j) ++ wrapEmit d descPos cw fuel (int32of (j + cw))
    else ""

/-- The description start column chosen by `add_entry`:
`width - ss.str().length() > width * 0.3f ? (unsigned)ss.str().length() : IndentFlag + 2`.
The left operand is `size_t` subtraction (wrapping); the float
comparison against `width * 0.3f` is modelled by the exact rational
value of the literal `0.3f`, namely `10066330 / 2^25`, cross-multiplied
(the subsequent float rounding of the product is not modelled; for the
operand ranges the subtraction can produce - at most the terminal
width, or nearly `2^64` after wraparound - it never changes the
verdict). -/
def descPosSel (iF width preLen : Nat) : Nat :=
  if wrapSub 18446744073709551616 width preLen * 33554432 > width * 10066330 then
    preLen % 4294967296
  else iF + 2

/-- `Options::get_default<T>`: the default-value suffix appended to a
usage description.  Dispatch follows the C++ `is_same` chain and the
`std::string` specialisation; `vInt` takes the final `else` branch of
the primary template. -/
def Options.get_default : Val → String
  | .vBool _ => " <switch>"
  | .vNat n => if n ≠ 0 then " <default: " ++ toString n ++ ">" else ""
  | .vStr s => if s.length ≠ 0 then " <default: " ++ s ++ ">" else ""
  | .vInt i => " <default: " ++ toString i ++ ">"

/-- The usage block that `add_entry` builds for an entry with nonempty
description: flag-label prefix, padding to `IndentDescription`, then
the word-wrapped description (with default suffix already appended). -/
def descBlock (iF iD width : Nat) (flagc : Char) (lf descr defText : String) : String :=
  let pre0 := spacesStr iF ++
    (if flagc.toNat ≠ 0 then "-" ++ String.mk [flagc] ++ " " else "") ++
    (if lf.length ≠ 0 then "--" ++ lf ++ " " else "")
  let pre1 := pre0 ++ spacesStr (if pre0.length > iD then 1 else iD - pre0.length)
  let d := (descr ++ defText).data
  let descPos := descPosSel iF width pre1.length
  let cw := wrapSub 4294967296 width descPos
  let pre2 := if descPos = iF + 2 then pre1 ++ "\n" else pre1
  pre2 ++ wrapEmit d descPos cw (d.length + 2) 0

/-- `Options::tty_width()`: the detected terminal width, clamped to the
80-column fallback when below 40.  The `ioctl` result is an environment
input and is passed in as `wsCol`. -/
def Options.tty_width (wsCol : Nat) : Nat := if wsCol ≥ 40 then wsCol else 80

/-- Outcome of `add_entry`: normal completion, the silent early return
for a flagless entry, or a thrown `std::runtime_error`. -/
inductive RegOutcome
  | ok
  | noop
  | err (msg : String)
  deriving DecidableEq, Repr

/-- Result of `add_entry`: outcome, the (possibly partially mutated)
instance state, and the in/out `struct option&`. -/
structure AEOut where
  out : RegOutcome
  st : Options
  op : GetoptOption
  deriving DecidableEq, Repr

/-- The tail of `add_entry` after flag validation: build and record the
usage block when the description is nonempty. -/
def Options.addUsage (st : Options) (width : Nat) (op : GetoptOption)
    (flagc : Char) (lf : String) (dflt : Val) (descr grp : String) : AEOut :=
  if descr.length ≠ 0 then
    let block := descBlock st.IndentFlag st.IndentDescription width flagc lf descr
      (Options.get_default dflt)
    ⟨.ok, { st with usage := usageInsert st.usage grp block }, op⟩
  else ⟨.ok, st, op⟩

/-- `Options::add_entry`.  Mutation order is the source's: a thrown
duplicate-long-flag error leaves the short-flag mutations (extended
`optstr` or incremented `optval`) in place. -/
def Options.add_entry (st : Options) (width : Nat) (op : GetoptOption)
    (flagc : Char) (lf : String) (dflt : Val) (descr grp : String) : AEOut :=
  if flagc.toNat = 0 ∧ lf.length = 0 then ⟨.noop, st, op⟩
  else
    let step1 : RegOutcome × Options × GetoptOption :=
      if flagc.toNat ≠ 0 then
        if (st.setters.lookup ((flagc.toNat : Int))).isSome then
          (.err ("Duplicate flag " ++ String.mk [flagc]), st, op)
        else
          (.ok, { st with optstr := st.optstr.push flagc },
            { op with val := (flagc.toNat : Int) })
      else
        (.ok, { st with optval := st.optval + 1 }, { op with val := st.optval })
    match step1 with
    | (.err m, st1, op1) => ⟨.err m, st1, op1⟩
    | (_, st1, op1) =>
      if lf.length ≠ 0 then
        if lf ∈ st1.long_flags then
          ⟨.err ("Duplicate long flag " ++ lf), st1, op1⟩
        else
          Options.addUsage { st1 with long_flags := strInsert st1.long_flags lf }
            width { op1 with name := some lf } flagc lf dflt descr grp
      else Options.addUsage st1 width op1 flagc lf dflt descr grp

/-- Outcome of `Add`/`AddSwitch` as seen by the caller: normal return
or a propagated exception. -/
inductive AddResult
  | ok
  | err (msg : String)
  deriving DecidableEq, Repr

/-- `AddResult.isErr` -/
def AddResult.isErr : AddResult → Bool
  | .ok => false
  | .err _ => true

/-- `Options::Add<T>`.  Note that after `add_entry` returns - also after
its silent flagless early return - the source unconditionally appends
`':'` to `optstr`, assigns the default to the bound variable, registers
the setter under `op.val` and pushes the entry; only a thrown exception
skips that tail. -/
def Options.Add (st : Options) (env : Env) (width : Nat) (varId : Nat)
    (flagc : Char) (lf descr : String) (dflt : Val) (grp : String) :
    AddResult × Options × Env :=
  match Options.add_entry st width uninitOption flagc lf dflt descr grp with
  | ⟨.err m, st', _⟩ => (.err m, st', env)
  | ⟨_, st', op'⟩ =>
    let st1 := { st' with optstr := st'.optstr.push ':' }
    let op1 := { op' with has_arg := 1 }
    let env1 := envSet env varId dflt
    (.ok,
      { st1 with
        setters := setterInsert st1.setters op1.val (.assign varId dflt.ty),
        options := st1.options ++ [op1] },
      env1)

/-- `Options::AddSwitch`.  The entry takes an optional argument and the
setter toggles the bound boolean; no `':'` is appended to `optstr`.
(The C++ passes the bound variable itself to `add_entry` as the default
operand; `get_default<bool>` ignores the value, so the declared default
is passed here.) -/
def Options.AddSwitch (st : Options) (env : Env) (width : Nat) (varId : Nat)
    (flagc : Char) (lf descr : String) (dflt : Bool) (grp : String) :
    AddResult × Options × Env :=
  match Options.add_entry st width uninitOption flagc lf (.vBool dflt) descr grp with
  | ⟨.err m, st', _⟩ => (.err m, st', env)
  | ⟨_, st', op'⟩ =>
    let op1 := { op' with has_arg := 2 }
    let env1 := envSet env varId (.vBool dflt)
    (.ok,
      { st' with
        setters := setterInsert st'.setters op1.val (.toggle varId),
        options := st'.options ++ [op1] },
      env1)

/-- One registration call, for reasoning about call sequences. -/
inductive RegCmd
  | add (varId : Nat) (flagc : Char) (lf descr : String) (dflt : Val) (grp : String)
  | addSwitch (varId : Nat) (flagc : Char) (lf descr : String) (dflt : Bool) (grp : String)
  deriving DecidableEq, Repr

/-- The short flag of a registration call. -/
def RegCmd.flagc : RegCmd → Char
  | .add _ c _ _ _ _ => c
  | .addSwitch _ c _ _ _ _ => c

/-- The long flag of a registration call. -/
def RegCmd.lf : RegCmd → String
  | .add _ _ l _ _ _ => l
  | .addSwitch _ _ l _ _ _ => l

/-- The description of a registration call. -/
def RegCmd.descr : RegCmd → String
  | .add _ _ _ d _ _ => d
  | .addSwitch _ _ _ d _ _ => d

/-- The group of a registration call. -/
def RegCmd.grp : RegCmd → String
  | .add _ _ _ _ _ g => g
  | .addSwitch _ _ _ _ _ g => g

/-- The bound variable of a registration call. -/
def RegCmd.varId : RegCmd → Nat
  | .add v _ _ _ _ _ => v
  | .addSwitch v _ _ _ _ _ => v

/-- The declared default of a registration call, as a `Val`. -/
def RegCmd.dflt : RegCmd → Val
  | .add _ _ _ _ d _ => d
  | .addSwitch _ _ _ _ d _ => .vBool d

/-- Perform one registration call. -/
def applyReg (width : Nat) (st : Options) (env : Env) : RegCmd → AddResult × Options × Env
  | .add v c l d df g => Options.Add st env width v c l d df g
  | .addSwitch v c l d df g => Options.AddSwitch st env width v c l d df g

/-- Perform a sequence of registration calls; a thrown configuration
error propagates (aborting the sequence). -/
def runRegs (width : Nat) (st : Options) (env : Env) : List RegCmd → Except String (Options × Env)
  | [] => .ok (st, env)
  | c :: rest =>
    match applyReg width st env c with
    | (.ok, st', env') => runRegs width st' env' rest
    | (.err m, _, _) => .error m

/-- Number of colons following an option character in the short-option
spec string: 0 = no argument, 1 = required argument, 2 = optional
argument (getopt semantics of `optstring`). -/
def countColons : List Char → Nat
  | ':' :: ':' :: _ => 2
  | ':' :: _ => 1
  | _ => 0

/-- Look up a short option character in `optstring`: `some k` with the
colon count after its first occurrence, `none` when the character is
not an option (including `':'` itself, never an option character). -/
def shortSpec (ostr : List Char) (c : Char) : Option Nat :=
  if c = ':' then none
  else
    match ostr with
    | [] => none
    | x :: rest => if x = c then some (countColons rest) else shortSpec rest c

/-- Split a `--name=value` body at the first `'='`. -/
def splitEq : List Char → List Char × Option (List Char)
  | [] => ([], none)
  | '=' :: rest => ([], some rest)
  | c :: rest =>
    let p := splitEq rest
    (c :: p.1, p.2)

/-- GNU long-option matching: an exact name match wins; otherwise the
strict-prefix matches are collected (two or more of them is the
ambiguous case). -/
def longCandidates (opts : List GetoptOption) (nm : List Char) : List GetoptOption :=
  match opts.filter (fun o => o.name = some (String.mk nm)) with
  | o :: _ => [o]
  | [] =>
    opts.filter (fun o =>
      match o.name with
      | some s => nm ≠ s.data ∧ s.data.take nm.length = nm
      | none => false)

/-- Process one short-option cluster `-xyz...` against `optstring`,
producing the `(code, optarg)` events getopt_long reports for it.
`nextTok` is the following `argv` element; the boolean tells whether it
was consumed as a required argument.  An unrecognised character yields
`'?'` (63) and processing continues with the rest of the cluster; a
required argument is taken from the rest of the cluster, else from the
next `argv` element whatever it looks like, and its absence yields
`':'` (58) when `optstring` starts with `':'` and `'?'` otherwise; an
optional argument is only ever taken from the rest of the cluster. -/
def clusterEvents (quiet : Bool) (ostr : List Char) :
    List Char → Option String → List (Int × Option String) × Bool
  | [], _ => ([], false)
  | c :: cs, nextTok =>
    match shortSpec ostr c with
    | none =>
      let p := clusterEvents quiet ostr cs nextTok
      (((63 : Int), none) :: p.1, p.2)
    | some 0 =>
      let p := clusterEvents quiet ostr cs nextTok
      (((c.toNat : Int), none) :: p.1, p.2)
    | some 1 =>
      if cs ≠ [] then ([((c.toNat : Int), some (String.mk cs))], false)
      else
        match nextTok with
        | some r => ([((c.toNat : Int), some r)], true)
        | none => ([((if quiet then (58 : Int) else 63), none)], false)
    | some _ =>
      if cs ≠ [] then ([((c.toNat : Int), some (String.mk cs))], false)
      else ([((c.toNat : Int), none)], false)

/-- One long-option event: the `(code, optarg)` pair getopt_long
reports for a matched long option together with the `argv` elements
still to process (a required argument may consume the next element).
`'?'` (63) is reported for an argument refused by a no-argument option
and - before the quiet-mode distinction - for a missing required
argument at the end of `argv`. -/
def longEvent (quiet : Bool) (o : GetoptOption) (valPart : Option (List Char))
    (nextTok : Option String) : List (Int × Option String) × Bool :=
  match o.has_arg, valPart with
  | 1, some v => ([(o.val, some (String.mk v))], false)
  | 1, none =>
    match nextTok with
    | some r => ([(o.val, some r)], true)
    | none => ([((if quiet then (58 : Int) else 63), none)], false)
  | 2, some v => ([(o.val, some (String.mk v))], false)
  | 2, none => ([(o.val, none)], false)
  | 0, some _ => ([((63 : Int), none)], false)
  | 0, none => ([(o.val, none)], false)
  | _, _ => ([((63 : Int), none)], false)

/-- The stream of `(code, optarg)` events that the
`getopt_long(argc, argv, optstr, options, NULL)` loop of `Parse`
reports for the given `argv` tail (`argv[1..]`): `"--"` terminates
option scanning; `--name[=value]` is matched against the long-option
table (unrecognised or ambiguous names yield `'?'` = 63); `-xyz...` is
processed as a short-option cluster; anything else is a non-option
argument that GNU getopt permutes away and option scanning continues.
`optarg` is reported as `none` where the C library leaves it `NULL`.
The `Nat` argument is structural fuel: every step consumes at least one
`argv` element, so fuel `args.length` (what `getoptStream` passes)
covers the whole scan. -/
def streamGo (quiet : Bool) (ostr : List Char) (opts : List GetoptOption) :
    Nat → List String → List (Int × Option String)
  | _, [] => []
  | 0, _ => []
  | fuel + 1, t :: rest =>
    match t.data with
    | '-' :: '-' :: [] => []
    | '-' :: '-' :: b0 :: body =>
      let p := splitEq (b0 :: body)
      match longCandidates opts p.1 with
      | [o] =>
        let e := longEvent quiet o p.2 rest.head?
        e.1 ++ streamGo quiet ostr opts fuel (if e.2 then rest.tail else rest)
      | [] => ((63 : Int), none) :: streamGo quiet ostr opts fuel rest
      | _ => ((63 : Int), none) :: streamGo quiet ostr opts fuel rest
    | '-' :: c :: cs =>
      let p := clusterEvents quiet ostr (c :: cs) rest.head?
      p.1 ++ streamGo quiet ostr opts fuel (if p.2 then rest.tail else rest)
    | _ => streamGo quiet ostr opts fuel rest

/-- Quiet mode of getopt error reporting: `optstring` begins with `':'`
(which the source produces when the very first registration is a
long-only value flag). -/
def quietMode (s : String) : Bool := s.data.head? = some ':'

/-- The `while ((ch = getopt_long(...)) != -1)` body of `Parse`: look
up each reported code in `setters`; a found setter is invoked with the
argument text (empty string for a `NULL` `optarg`), an absent code -
including the `'?'`/`':'` error reports - makes `Parse` return `false`
on the spot. -/
def dispatchLoop (setters : List (Int × Setter)) : Env → List (Int × Option String) → Bool × Env
  | env, [] => (true, env)
  | env, e :: rest =>
    match setters.lookup e.1 with
    | some s => dispatchLoop setters (applySetter s env (e.2.getD "")) rest
    | none => (false, env)

/-- The event stream getopt_long reports for this instance's option
tables on the given `argv` tail. -/
def getoptStream (st : Options) (args : List String) : List (Int × Option String) :=
  streamGo (quietMode st.optstr) st.optstr.data st.options args.length args

/-- Run the recognised events over the environment, ignoring
unrecognised codes: the environment `dispatchLoop` has accumulated when
it stops. -/
def dispatchAll (setters : List (Int × Setter)) (env : Env)
    (events : List (Int × Option String)) : Env :=
  events.foldl (fun env e =>
    match setters.lookup e.1 with
    | some s => applySetter s env (e.2.getD "")
    | none => env) env

/-- `Options::Parse(argc, argv)` over `argv[1..]`: success flag and the
final state of the bound variables.  (The sentinel `{NULL, 0, NULL, 0}`
the source pushes before looping only terminates the C table and is
not part of the model; `getopt_long` itself never matches it since its
name is `NULL`.) -/
def Options.Parse (st : Options) (env : Env) (args : List String) : Bool × Env :=
  dispatchLoop st.setters env (getoptStream st args)

/-- One group section of the usage text: the group header line
(suppressed for the empty group and the sentinel group `"_"`, the
`it.first.size() && it.first.compare("_")` test), each block followed
by `'\n'`, then a blank separator line. -/
def sectionText (p : String × List String) : String :=
  (if p.1.length ≠ 0 ∧ p.1 ≠ "_" then p.1 ++ ":\n" else "") ++
    String.join (p.2.map (· ++ "\n")) ++ "\n"

/-- `Options::Usage()`: the optional header, then one section per key
of the `usage` map in the map's iteration order. -/
def Options.Usage (st : Options) : String :=
  (if st.Header.length ≠ 0 then st.Header else "") ++
    String.join (st.usage.map sectionText)

/-- Spec-modelled code-assignment rule, following the claim's words:
a short flag is its own character value, otherwise the current counter
value is taken and the counter incremented. -/
def specCodeRule (k : Int) : List RegCmd → List Int
  | [] => []
  | c :: rest =>
    if (RegCmd.flagc c).toNat ≠ 0 then ((RegCmd.flagc c).toNat : Int) :: specCodeRule k rest
    else k :: specCodeRule (k + 1) rest

/-- Spec-modelled greedy word wrap, following the claim's words: at
each wrap point skip leading spaces, then cut a chunk of exactly the
column width while more than a chunk remains, the final chunk taking
whatever is left. -/
def specWrapGo (cw : Nat) : Nat → List Char → List (List Char)
  | 0, d => [d.dropWhile (fun c => c = ' ')]
  | fuel + 1, d =>
    if (d.dropWhile (fun c => c = ' ')).length ≤ cw ∨ cw = 0 then
      [d.dropWhile (fun c => c = ' ')]
    else
      ((d.dropWhile (fun c => c = ' ')).take cw) ::
        specWrapGo cw fuel ((d.dropWhile (fun c => c = ' ')).drop cw)

/-- Spec-modelled greedy word wrap (entry point): fuel `d.length`
suffices since every recursive step removes at least one character. -/
def specWrap (cw : Nat) (d : List Char) : List (List Char) :=
  specWrapGo cw d.length d

/-- Spec-modelled usage blocks of one group, following the claim's
words: the blocks of the registrations naming that group, with a
nonempty description, in registration order. -/
def specGroupBlocks (iF iD w : Nat) (g : String) : List RegCmd → List String
  | [] => []
  | c :: rest =>
    (if RegCmd.grp c = g ∧ (RegCmd.descr c).length ≠ 0 then
      [descBlock iF iD w (RegCmd.flagc c) (RegCmd.lf c) (RegCmd.descr c)
        (Options.get_default (RegCmd.dflt c))]
    else []) ++ specGroupBlocks iF iD w g rest

/-- Registrations exercising the short value flag `-o, --output`
followed by a long-only value flag `--level`: the second `Add` appends
a stray `':'` to `optstr` (yielding `"o::"`). -/
def c1Cmds : List RegCmd :=
  [RegCmd.add 0 'o' "output" "" (Val.vStr "") "",
   RegCmd.add 1 '\x00' "level" "" (Val.vNat 0) ""]

/-- State and environment after the `c1Cmds` registrations. -/
def c1Reg : Options × Env :=
  match runRegs 80 Options.init [] c1Cmds with
  | .ok p => p
  | .error _ => (Options.init, [])

/-- Parsing `["-o", "value.txt"]` in the `c1Cmds` configuration. -/
def c1Run : Bool × Env := Options.Parse c1Reg.1 c1Reg.2 ["-o", "value.txt"]

/-- A single registered value flag `-o, --output` (spec string `"o:"`). -/
def c2Cmds : List RegCmd := [RegCmd.add 0 'o' "output" "" (Val.vStr "") ""]

/-- State and environment after the `c2Cmds` registration. -/
def c2Reg : Options × Env :=
  match runRegs 80 Options.init [] c2Cmds with
  | .ok p => p
  | .error _ => (Options.init, [])

/-- Parsing `["-o"]` - the registered flag with its required argument
missing - in the `c2Cmds` configuration. -/
def c2Run : Bool × Env := Options.Parse c2Reg.1 c2Reg.2 ["-o"]

/-- A flagless registration call: no short flag, no long flag, but a
description, a default and a bound variable. -/
def c4Res : AddResult × Options × Env :=
  applyReg 80 Options.init [] (RegCmd.add 0 '\x00' "" "d" (Val.vStr "x") "")

/-- Two switches whose groups first appear in the order `"b"`, `"a"`. -/
def c5Cmds : List RegCmd :=
  [RegCmd.addSwitch 0 'x' "" "d" false "b",
   RegCmd.addSwitch 1 'y' "" "e" false "a"]

/-- State after the `c5Cmds` registrations. -/
def c5St : Options :=
  match runRegs 80 Options.init [] c5Cmds with
  | .ok p => p.1
  | .error _ => Options.init

/-- Registrations exercising a switch `-v, --verbose` followed by a
long-only value flag `--output`: the second `Add` appends a stray `':'`
to `optstr` right after the switch character (yielding `"v:"`). -/
def c6Cmds : List RegCmd :=
  [RegCmd.addSwitch 0 'v' "verbose" "" false "",
   RegCmd.add 1 '\x00' "output" "" (Val.vStr "out") ""]

/-- State and environment after the `c6Cmds` registrations. -/
def c6Reg : Options × Env :=
  match runRegs 80 Options.init [] c6Cmds with
  | .ok p => p
  | .error _ => (Options.init, [])

/-- Parsing the switch twice, `["-v", "-v"]`, in the `c6Cmds`
configuration. -/
def c6Run : Bool × Env := Options.Parse c6Reg.1 c6Reg.2 ["-v", "-v"]

/-- A long flag of 90 characters, making the flag-label prefix longer
than the 80-column terminal width. -/
def c9LongFlag : String := String.mk (List.replicate 90 'z')

/-- The usage block built for a `-x --zzz...z` entry with description
`"hello world"` at terminal width 80: the padded prefix is 99 columns
wide, beyond the terminal width. -/
def c9Block : String := descBlock 2 18 80 'x' c9LongFlag "hello world" ""

/-- A switch registered under `-v, --verbose`, for exercising duplicate
registration. -/
def c3Cmds : List RegCmd := [RegCmd.addSwitch 0 'v' "verbose" "" false ""]

/-- State and environment after the `c3Cmds` registration. -/
def c3Reg : Options × Env :=
  match runRegs 80 Options.init [] c3Cmds with
  | .ok p => p
  | .error _ => (Options.init, [])

/-- Spec-modelled rendering of wrapped chunks, following the claim's
words: the first chunk in place, every continuation chunk on its own
line re-indented to the description start column. -/
def specRender (descPos : Nat) : List (List Char) → String
  | [] => ""
  | [c] => String.mk c
  | c :: rest => String.mk c ++ "\n" ++ spacesStr descPos ++ specRender descPos rest

/-- Two descriptionless registrations binding distinct variables, with
distinct short flags. -/
def c10Cmds : List RegCmd :=
  [RegCmd.add 0 'a' "" "" (Val.vStr "s") "",
   RegCmd.addSwitch 1 'b' "" "" true ""]

/-- Three registrations: two short flags and one long-only flag (which
receives the synthetic code 256). -/
def c7Cmds : List RegCmd :=
  [RegCmd.add 0 'a' "" "" (Val.vStr "") "",
   RegCmd.add 1 '\x00' "long" "" (Val.vNat 0) "",
   RegCmd.addSwitch 2 'c' "" "" false ""]

/-! ## Helper lemmas -/

theorem lookupPV_cons_self {β : Type} (a : Nat) (x : β) (t : List (Nat × β)) :
    List.lookup a ((a, x) :: t) = some x := by
  simp [List.lookup]

theorem lookupPV_cons_ne {β : Type} (a b : Nat) (x : β) (t : List (Nat × β))
    (h : b ≠ a) : List.lookup b ((a, x) :: t) = List.lookup b t := by
  simp [List.lookup, beq_false_of_ne h]

theorem lookupInt_cons_self {β : Type} (a : Int) (x : β) (t : List (Int × β)) :
    List.lookup a ((a, x) :: t) = some x := by
  simp [List.lookup]

theorem lookupInt_cons_ne {β : Type} (a b : Int) (x : β) (t : List (Int × β))
    (h : b ≠ a) : List.lookup b ((a, x) :: t) = List.lookup b t := by
  simp [List.lookup, beq_false_of_ne h]

theorem envGet_envSet_self (e : Env) (v : Nat) (x : Val) :
    envGet (envSet e v x) v = some x := by
  induction e with
  | nil => simp [envSet, envGet, List.lookup]
  | cons h t ih =>
    obtain ⟨k, y⟩ := h
    by_cases hk : k = v
    · subst hk
      simp [envSet, envGet, List.lookup]
    · simp only [envSet, if_neg hk, envGet] at *
      rw [lookupPV_cons_ne _ _ _ _ (fun hh => hk hh.symm)]
      exact ih

theorem envGet_envSet_ne (e : Env) (v w : Nat) (x : Val) (h : w ≠ v) :
    envGet (envSet e v x) w = envGet e w := by
  induction e with
  | nil =>
    simp only [envSet, envGet]
    rw [lookupPV_cons_ne _ _ _ _ h]
  | cons hd t ih =>
    obtain ⟨k, y⟩ := hd
    by_cases hk : k = v
    · subst hk
      simp only [envSet, envGet, eq_self_iff_true, if_true] at *
      rw [lookupPV_cons_ne _ _ _ _ h, lookupPV_cons_ne _ _ _ _ h]
    · simp only [envSet, if_neg hk, envGet] at *
      by_cases hw : w = k
      · subst hw
        rw [lookupPV_cons_self, lookupPV_cons_self]
      · rw [lookupPV_cons_ne _ _ _ _ hw, lookupPV_cons_ne _ _ _ _ hw]
        exact ih

theorem lookup_setterInsert_self (l : List (Int × Setter)) (k : Int) (v : Setter) :
    (setterInsert l k v).lookup k = some v := by
  induction l with
  | nil =>
    simp only [setterInsert]
    exact lookupInt_cons_self _ _ _
  | cons hd t ih =>
    obtain ⟨k', v'⟩ := hd
    by_cases hk : k' = k
    · subst hk
      simp only [setterInsert, eq_self_iff_true, if_true]
      exact lookupInt_cons_self _ _ _
    · simp only [setterInsert, if_neg hk]
      rw [lookupInt_cons_ne _ _ _ _ (fun hh => hk hh.symm)]
      exact ih

theorem lookup_setterInsert_ne (l : List (Int × Setter)) (k k' : Int) (v : Setter)
    (h : k' ≠ k) : (setterInsert l k v).lookup k' = l.lookup k' := by
  induction l with
  | nil =>
    simp only [setterInsert]
    rw [lookupInt_cons_ne _ _ _ _ h]
  | cons hd t ih =>
    obtain ⟨k0, v0⟩ := hd
    by_cases hk : k0 = k
    · subst hk
      simp only [setterInsert, eq_self_iff_true, if_true]
      rw [lookupInt_cons_ne _ _ _ _ h, lookupInt_cons_ne _ _ _ _ h]
    · simp only [setterInsert, if_neg hk]
      by_cases hw : k' = k0
      · subst hw
        rw [lookupInt_cons_self, lookupInt_cons_self]
      · rw [lookupInt_cons_ne _ _ _ _ hw, lookupInt_cons_ne _ _ _ _ hw]
        exact ih

theorem nodup_append_singleton {l : List Int} {a : Int} (h : l.Nodup) (ha : a ∉ l) :
    (l ++ [a]).Nodup := by
  simp [List.nodup_append, h, ha]

/-! ## Claim C8: default-value rendering -/

/-- C8 (counterexample): the primary template's final `else` branch
renders the default unconditionally, so an `int`-typed flag with
default `0` gets the suffix `" <default: 0>"` where the claim requires
no suffix for a zero default of a non-`bool`, non-`unsigned`,
non-`string` type. -/
theorem c8_counterexample :
    Options.get_default (Val.vInt 0) = " <default: 0>" ∧
    Options.get_default (Val.vInt 0) ≠ "" := by
  constructor
  · rfl
  · decide

/-- C8 (amended): the default-value suffix is rendered by type as
follows: `bool` defaults always render the fixed marker `" <switch>"`;
`unsigned` defaults render only when nonzero; `std::string` defaults
render only when non-empty; every other type's default is always
rendered (via the stream text conversion), zero or not. -/
theorem c8_default_rendering :
    (∀ b, Options.get_default (Val.vBool b) = " <switch>") ∧
    (∀ n, Options.get_default (Val.vNat n) =
      if n ≠ 0 then " <default: " ++ toString n ++ ">" else "") ∧
    (∀ s, Options.get_default (Val.vStr s) =
      if s.length ≠ 0 then " <default: " ++ s ++ ">" else "") ∧
    (∀ i, Options.get_default (Val.vInt i) = " <default: " ++ toString i ++ ">") :=
  ⟨fun _ => rfl, fun _ => rfl, fun _ => rfl, fun _ => rfl⟩

/-! ## Claim C4: flagless registration -/

/-- C4: a registration with neither a short nor a long flag is not a
no-op.  `add_entry` does return early, but `Add` continues: it appends
`':'` to the short-option spec string, pushes the (uninitialised)
entry, registers a setter under the entry's indeterminate code, and
overwrites the bound variable with the default - refuting the claimed
frame condition on the option-spec string, entry list, setter table and
bound variable (only the usage table is untouched). -/
theorem c4_flagless_registration_mutates :
    c4Res.1 = AddResult.ok ∧
    c4Res.2.1.optstr = ":" ∧
    c4Res.2.1.options = [⟨none, 1, 0⟩] ∧
    ((c4Res.2.1.setters.lookup 0).isSome = true) ∧
    envGet c4Res.2.2 0 = some (Val.vStr "x") ∧
    c4Res.2.1.usage = [] := by
  decide

/-! ## Claim C1: value-flag assignment -/

/-- C1: evaluation at the failing input.  After registering the value
flag `-o, --output` and then a long-only value flag `--level`, the
short-option spec string is the corrupted `"o::"` (the stray `':'`
appended by the long-only `Add` makes `-o` take only attached optional
arguments), so parsing `["-o", "value.txt"]` succeeds without
assigning: `optarg` is `NULL`, the setter stores `""`, and the bound
variable does not receive `"value.txt"`. -/
theorem c1_short_value_flag_not_assigned :
    c1Reg.1.optstr = "o::" ∧
    c1Run = (true, [(0, Val.vStr ""), (1, Val.vNat 0)]) ∧
    envGet c1Run.2 0 ≠ some (Val.vStr "value.txt") := by
  decide

/-! ## Claim C6: switch toggle parity -/

/-- C6: evaluation at the failing input.  After registering the switch
`-v, --verbose` and then a long-only value flag `--output`, the
short-option spec string is `"v:"` (the stray `':'` appended by the
long-only `Add` lands after the switch character), so in
`["-v", "-v"]` the first `-v` consumes the second as its required
argument: the toggle runs once and two occurrences leave the bound
boolean `true`, where the claim's parity rule demands `false`. -/
theorem c6_switch_parity_bug :
    c6Reg.1.optstr = "v:" ∧
    c6Run = (true, [(0, Val.vBool true), (1, Val.vStr "out")]) := by
  decide

/-! ## Claim C2: parse failure behaviour -/

/-- C2 (counterexample): `-o` is registered (it has spec `some 1` in
the short-option string and a setter under code 111), the argument
list `["-o"]` contains no unregistered option, yet `Parse` returns
`false`: getopt reports `'?'` (63) for the missing required argument,
and 63 has no setter.  The claim's statement - `Parse` returns `true`
whenever every encountered option is recognised - fails here. -/
theorem c2_counterexample :
    ((c2Reg.1.setters.lookup 111).isSome = true) ∧
    shortSpec c2Reg.1.optstr.data 'o' = some 1 ∧
    c2Run = (false, [(0, Val.vStr "")]) := by
  decide

/-! ## Claim C5: usage section order -/

/-- C5 (counterexample): registering a described entry of group `"b"`
first and one of group `"a"` second, `Usage()` emits the `"a"` section
before the `"b"` section - `std::map` iterates keys in sorted order,
not in first-registration order as claimed. -/
theorem c5_counterexample :
    c5Cmds.map RegCmd.grp = ["b", "a"] ∧
    c5St.usage.map Prod.fst = ["a", "b"] ∧
    Options.Usage c5St =
      "a:\n  -y              e <switch>\n\nb:\n  -x              d <switch>\n\n" ∧
    (["a", "b"] : List String) ≠ ["b", "a"] := by
  decide

/-! ## Claim C9: usage layout and word wrap -/

set_option maxRecDepth 16384 in
/-- C9 (counterexample): with terminal width 80 and a 90-character long
flag the padded flag-label prefix is 99 columns, so no width remains
for the description - the claim then requires the fallback
`IndentFlag + 2` start column with the description on its own line.
Instead the unsigned subtraction `width - prefix` wraps around, the
prefix branch is taken, and the whole block is a single line (no
newline anywhere) with the description starting at column 99. -/
theorem c9_counterexample :
    c9Block = "  -x --" ++ c9LongFlag ++ "  hello world" ∧
    c9Block.data.contains '\n' = false ∧
    descPosSel 2 80 99 = 99 ∧ descPosSel 2 80 99 ≠ 2 + 2 := by
  decide

/-! ## Symbolic evaluation lemmas for registration -/

theorem add_entry_eq_short_only (st : Options) (w : Nat) (op : GetoptOption)
    (c : Char) (lf descr : String) (dflt : Val) (grp : String)
    (hc : c.toNat ≠ 0) (hlook : st.setters.lookup ((c.toNat : Int)) = none)
    (hl : lf.length = 0) :
    Options.add_entry st w op c lf dflt descr grp =
      ⟨.ok,
       { st with
         optstr := st.optstr.push c,
         usage := if descr.length ≠ 0 then
             usageInsert st.usage grp (descBlock st.IndentFlag st.IndentDescription w c lf
               descr (Options.get_default dflt))
           else st.usage },
       { op with val := ((c.toNat : Int)) }⟩ := by
  unfold Options.add_entry Options.addUsage
  simp only [hc, hl, hlook]
  by_cases hd : descr.length = 0 <;> simp [hd, hc, hl, hlook]

theorem add_entry_eq_short_long (st : Options) (w : Nat) (op : GetoptOption)
    (c : Char) (lf descr : String) (dflt : Val) (grp : String)
    (hc : c.toNat ≠ 0) (hlook : st.setters.lookup ((c.toNat : Int)) = none)
    (hl : lf.length ≠ 0) (hmem : lf ∉ st.long_flags) :
    Options.add_entry st w op c lf dflt descr grp =
      ⟨.ok,
       { st with
         optstr := st.optstr.push c,
         long_flags := strInsert st.long_flags lf,
         usage := if descr.length ≠ 0 then
             usageInsert st.usage grp (descBlock st.IndentFlag st.IndentDescription w c lf
               descr (Options.get_default dflt))
           else st.usage },
       { op with name := some lf, val := ((c.toNat : Int)) }⟩ := by
  unfold Options.add_entry Options.addUsage
  simp only [hc, hl, hlook, hmem]
  by_cases hd : descr.length = 0 <;> simp [hd, hc, hl, hlook, hmem]

theorem add_entry_eq_long_only (st : Options) (w : Nat) (op : GetoptOption)
    (c : Char) (lf descr : String) (dflt : Val) (grp : String)
    (hc : c.toNat = 0) (hl : lf.length ≠ 0) (hmem : lf ∉ st.long_flags) :
    Options.add_entry st w op c lf dflt descr grp =
      ⟨.ok,
       { st with
         optval := st.optval + 1,
         long_flags := strInsert st.long_flags lf,
         usage := if descr.length ≠ 0 then
             usageInsert st.usage grp (descBlock st.IndentFlag st.IndentDescription w c lf
               descr (Options.get_default dflt))
           else st.usage },
       { op with name := some lf, val := st.optval }⟩ := by
  unfold Options.add_entry Options.addUsage
  simp only [hc, hl, hmem]
  by_cases hd : descr.length = 0 <;> simp [hd, hc, hl, hmem]

theorem add_entry_eq_noop (st : Options) (w : Nat) (op : GetoptOption)
    (c : Char) (lf descr : String) (dflt : Val) (grp : String)
    (hc : c.toNat = 0) (hl : lf.length = 0) :
    Options.add_entry st w op c lf dflt descr grp = ⟨.noop, st, op⟩ := by
  unfold Options.add_entry
  simp [hc, hl]

theorem add_entry_eq_err_short (st : Options) (w : Nat) (op : GetoptOption)
    (c : Char) (lf descr : String) (dflt : Val) (grp : String)
    (hc : c.toNat ≠ 0) (hlook : (st.setters.lookup ((c.toNat : Int))).isSome = true) :
    Options.add_entry st w op c lf dflt descr grp =
      ⟨.err ("Duplicate flag " ++ String.mk [c]), st, op⟩ := by
  unfold Options.add_entry
  simp [hc, hlook]

theorem add_entry_eq_err_long_withshort (st : Options) (w : Nat) (op : GetoptOption)
    (c : Char) (lf descr : String) (dflt : Val) (grp : String)
    (hc : c.toNat ≠ 0) (hlook : st.setters.lookup ((c.toNat : Int)) = none)
    (hl : lf.length ≠ 0) (hmem : lf ∈ st.long_flags) :
    Options.add_entry st w op c lf dflt descr grp =
      ⟨.err ("Duplicate long flag " ++ lf),
       { st with optstr := st.optstr.push c },
       { op with val := ((c.toNat : Int)) }⟩ := by
  unfold Options.add_entry
  simp [hc, hl, hlook, hmem]

theorem add_entry_eq_err_long_noshort (st : Options) (w : Nat) (op : GetoptOption)
    (c : Char) (lf descr : String) (dflt : Val) (grp : String)
    (hc : c.toNat = 0) (hl : lf.length ≠ 0) (hmem : lf ∈ st.long_flags) :
    Options.add_entry st w op c lf dflt descr grp =
      ⟨.err ("Duplicate long flag " ++ lf),
       { st with optval := st.optval + 1 },
       { op with val := st.optval }⟩ := by
  unfold Options.add_entry
  simp [hc, hl, hmem]

theorem Add_of_add_entry_ok (st stO : Options) (env : Env) (w v : Nat) (c : Char)
    (lf descr : String) (dflt : Val) (grp : String) (opO : GetoptOption)
    (h : Options.add_entry st w uninitOption c lf dflt descr grp = ⟨.ok, stO, opO⟩) :
    Options.Add st env w v c lf descr dflt grp =
      (.ok,
       { stO with
         optstr := stO.optstr.push ':',
         setters := setterInsert stO.setters opO.val (.assign v dflt.ty),
         options := stO.options ++ [{ opO with has_arg := 1 }] },
       envSet env v dflt) := by
  unfold Options.Add
  rw [h]

theorem Add_of_add_entry_noop (st stO : Options) (env : Env) (w v : Nat) (c : Char)
    (lf descr : String) (dflt : Val) (grp : String) (opO : GetoptOption)
    (h : Options.add_entry st w uninitOption c lf dflt descr grp = ⟨.noop, stO, opO⟩) :
    Options.Add st env w v c lf descr dflt grp =
      (.ok,
       { stO with
         optstr := stO.optstr.push ':',
         setters := setterInsert stO.setters opO.val (.assign v dflt.ty),
         options := stO.options ++ [{ opO with has_arg := 1 }] },
       envSet env v dflt) := by
  unfold Options.Add
  rw [h]

theorem Add_of_add_entry_err (st stE : Options) (env : Env) (w v : Nat) (c : Char)
    (lf descr : String) (dflt : Val) (grp m : String) (opE : GetoptOption)
    (h : Options.add_entry st w uninitOption c lf dflt descr grp = ⟨.err m, stE, opE⟩) :
    Options.Add st env w v c lf descr dflt grp = (.err m, stE, env) := by
  unfold Options.Add
  rw [h]

theorem AddSwitch_of_add_entry_ok (st stO : Options) (env : Env) (w v : Nat) (c : Char)
    (lf descr : String) (dflt : Bool) (grp : String) (opO : GetoptOption)
    (h : Options.add_entry st w uninitOption c lf (.vBool dflt) descr grp = ⟨.ok, stO, opO⟩) :
    Options.AddSwitch st env w v c lf descr dflt grp =
      (.ok,
       { stO with
         setters := setterInsert stO.setters opO.val (.toggle v),
         options := stO.options ++ [{ opO with has_arg := 2 }] },
       envSet env v (.vBool dflt)) := by
  unfold Options.AddSwitch
  rw [h]

theorem AddSwitch_of_add_entry_noop (st stO : Options) (env : Env) (w v : Nat) (c : Char)
    (lf descr : String) (dflt : Bool) (grp : String) (opO : GetoptOption)
    (h : Options.add_entry st w uninitOption c lf (.vBool dflt) descr grp = ⟨.noop, stO, opO⟩) :
    Options.AddSwitch st env w v c lf descr dflt grp =
      (.ok,
       { stO with
         setters := setterInsert stO.setters opO.val (.toggle v),
         options := stO.options ++ [{ opO with has_arg := 2 }] },
       envSet env v (.vBool dflt)) := by
  unfold Options.AddSwitch
  rw [h]

theorem AddSwitch_of_add_entry_err (st stE : Options) (env : Env) (w v : Nat) (c : Char)
    (lf descr : String) (dflt : Bool) (grp m : String) (opE : GetoptOption)
    (h : Options.add_entry st w uninitOption c lf (.vBool dflt) descr grp = ⟨.err m, stE, opE⟩) :
    Options.AddSwitch st env w v c lf descr dflt grp = (.err m, stE, env) := by
  unfold Options.AddSwitch
  rw [h]

theorem add_entry_dup_err (st : Options) (w : Nat) (op : GetoptOption) (c : Char)
    (lf descr : String) (dflt : Val) (grp : String)
    (h : (c.toNat ≠ 0 ∧ (st.setters.lookup ((c.toNat : Int))).isSome = true) ∨
         (lf.length ≠ 0 ∧ lf ∈ st.long_flags)) :
    ∃ m stE opE, Options.add_entry st w op c lf dflt descr grp = ⟨.err m, stE, opE⟩ ∧
      stE.setters = st.setters := by
  rcases h with ⟨hc, hs⟩ | ⟨hl, hm⟩
  · exact ⟨_, _, _, add_entry_eq_err_short st w op c lf descr dflt grp hc hs, rfl⟩
  · by_cases hc : c.toNat = 0
    · exact ⟨_, _, _, add_entry_eq_err_long_noshort st w op c lf descr dflt grp hc hl hm, rfl⟩
    · rcases hs : (st.setters.lookup ((c.toNat : Int))) with _ | s
      · exact ⟨_, _, _,
          add_entry_eq_err_long_withshort st w op c lf descr dflt grp hc hs hl hm, rfl⟩
      · refine ⟨_, _, _, add_entry_eq_err_short st w op c lf descr dflt grp hc ?_, rfl⟩
        rw [hs]
        rfl

/-! ## Claim C3: duplicate registration -/

/-- C3: registering a flag whose short character is already registered
(it has a setter), or whose long flag is already registered, makes the
registering call - `Add` as well as `AddSwitch` - throw a
configuration error synchronously; the second registration's bound
variable is untouched (the environment is returned unchanged) and no
setter is bound (the setter table is unchanged). -/
theorem c3_duplicate_registration_error (st : Options) (env : Env) (w v : Nat)
    (c : Char) (lf descr : String) (dflt : Val) (db : Bool) (grp : String)
    (h : (c.toNat ≠ 0 ∧ (st.setters.lookup ((c.toNat : Int))).isSome = true) ∨
         (lf.length ≠ 0 ∧ lf ∈ st.long_flags)) :
    ((Options.Add st env w v c lf descr dflt grp).1.isErr = true ∧
     (Options.Add st env w v c lf descr dflt grp).2.2 = env ∧
     (Options.Add st env w v c lf descr dflt grp).2.1.setters = st.setters) ∧
    ((Options.AddSwitch st env w v c lf descr db grp).1.isErr = true ∧
     (Options.AddSwitch st env w v c lf descr db grp).2.2 = env ∧
     (Options.AddSwitch st env w v c lf descr db grp).2.1.setters = st.setters) := by
  obtain ⟨m1, stE1, opE1, he1, hs1⟩ :=
    add_entry_dup_err st w uninitOption c lf descr dflt grp h
  obtain ⟨m2, stE2, opE2, he2, hs2⟩ :=
    add_entry_dup_err st w uninitOption c lf descr (.vBool db) grp h
  rw [Add_of_add_entry_err st stE1 env w v c lf descr dflt grp m1 opE1 he1]
  rw [AddSwitch_of_add_entry_err st stE2 env w v c lf descr db grp m2 opE2 he2]
  exact ⟨⟨rfl, rfl, hs1⟩, ⟨rfl, rfl, hs2⟩⟩

/-- C3 (witness): with `-v, --verbose` already registered, registering
a fresh long flag under the same short character `'v'`, or a fresh
short character under the same long flag `"verbose"`, errors out and
leaves the environment and setter table unchanged. -/
theorem c3_duplicate_registration_error_witness :
    (((Options.Add c3Reg.1 c3Reg.2 80 1 'v' "x" "" (Val.vStr "") "").1.isErr = true ∧
      (Options.Add c3Reg.1 c3Reg.2 80 1 'v' "x" "" (Val.vStr "") "").2.2 = c3Reg.2 ∧
      (Options.Add c3Reg.1 c3Reg.2 80 1 'v' "x" "" (Val.vStr "") "").2.1.setters =
        c3Reg.1.setters) ∧
     ((Options.AddSwitch c3Reg.1 c3Reg.2 80 1 'v' "x" "" true "").1.isErr = true ∧
      (Options.AddSwitch c3Reg.1 c3Reg.2 80 1 'v' "x" "" true "").2.2 = c3Reg.2 ∧
      (Options.AddSwitch c3Reg.1 c3Reg.2 80 1 'v' "x" "" true "").2.1.setters =
        c3Reg.1.setters)) ∧
    (((Options.Add c3Reg.1 c3Reg.2 80 1 'w' "verbose" "" (Val.vStr "") "").1.isErr = true ∧
      (Options.Add c3Reg.1 c3Reg.2 80 1 'w' "verbose" "" (Val.vStr "") "").2.2 = c3Reg.2 ∧
      (Options.Add c3Reg.1 c3Reg.2 80 1 'w' "verbose" "" (Val.vStr "") "").2.1.setters =
        c3Reg.1.setters) ∧
     ((Options.AddSwitch c3Reg.1 c3Reg.2 80 1 'w' "verbose" "" true "").1.isErr = true ∧
      (Options.AddSwitch c3Reg.1 c3Reg.2 80 1 'w' "verbose" "" true "").2.2 = c3Reg.2 ∧
      (Options.AddSwitch c3Reg.1 c3Reg.2 80 1 'w' "verbose" "" true "").2.1.setters =
        c3Reg.1.setters)) :=
  ⟨c3_duplicate_registration_error c3Reg.1 c3Reg.2 80 1 'v' "x" "" (Val.vStr "") true ""
      (Or.inl ⟨by decide, by decide⟩),
   c3_duplicate_registration_error c3Reg.1 c3Reg.2 80 1 'w' "verbose" "" (Val.vStr "") true ""
      (Or.inr ⟨by decide, by decide⟩)⟩

/-! ## Claim C10: defaults assigned at registration -/

theorem applyReg_ok_env (w : Nat) (st : Options) (env : Env) (c : RegCmd)
    (st1 : Options) (env1 : Env)
    (h : applyReg w st env c = (.ok, st1, env1)) :
    env1 = envSet env (RegCmd.varId c) (RegCmd.dflt c) := by
  cases c with
  | add v fc l d df g =>
    simp only [applyReg] at h
    unfold Options.Add at h
    rcases hae : Options.add_entry st w uninitOption fc l df d g with ⟨out, stO, opO⟩
    rw [hae] at h
    cases out <;> simp_all [RegCmd.varId, RegCmd.dflt]
  | addSwitch v fc l d df g =>
    simp only [applyReg] at h
    unfold Options.AddSwitch at h
    rcases hae : Options.add_entry st w uninitOption fc l (.vBool df) d g with ⟨out, stO, opO⟩
    rw [hae] at h
    cases out <;> simp_all [RegCmd.varId, RegCmd.dflt]

theorem runRegs_env (w : Nat) :
    ∀ (cmds : List RegCmd) (st : Options) (env : Env) (st' : Options) (env' : Env),
      runRegs w st env cmds = .ok (st', env') →
      (∀ x, x ∉ cmds.map RegCmd.varId → envGet env' x = envGet env x) ∧
      ((cmds.map RegCmd.varId).Nodup →
        ∀ c ∈ cmds, envGet env' (RegCmd.varId c) = some (RegCmd.dflt c)) := by
  intro cmds
  induction cmds with
  | nil =>
    intro st env st' env' h
    simp only [runRegs] at h
    obtain ⟨h1, h2⟩ : st = st' ∧ env = env' := by simpa using h
    subst h1
    subst h2
    constructor
    · intro x _
      rfl
    · intro _ c hc
      exact absurd hc (List.not_mem_nil c)
  | cons c rest ih =>
    intro st env st' env' h
    simp only [runRegs] at h
    rcases happ : applyReg w st env c with ⟨r, st1, env1⟩
    rw [happ] at h
    cases r with
    | err m => simp at h
    | ok =>
      have henv1 := applyReg_ok_env w st env c st1 env1 happ
      obtain ⟨ihFrame, ihDflt⟩ := ih st1 env1 st' env' h
      constructor
      · intro x hx
        simp only [List.map_cons, List.mem_cons, not_or] at hx
        rw [ihFrame x hx.2, henv1, envGet_envSet_ne env _ x _ hx.1]
      · intro hnodup c' hc'
        simp only [List.map_cons, List.nodup_cons] at hnodup
        rcases List.mem_cons.mp hc' with rfl | hmem
        · rw [ihFrame (RegCmd.varId c') hnodup.1, henv1]
          exact envGet_envSet_self env _ _
        · exact ihDflt hnodup.2 c' hmem

/-- C10: `Add` and `AddSwitch` assign the declared default to the
caller's bound variable during the registering call itself (before any
parsing), overwriting the prior value; consequently after a sequence of
registrations binding distinct variables, and before `Parse` runs,
every bound variable holds its declared default. -/
theorem c10_defaults_assigned :
    (∀ (st : Options) (env : Env) (w v : Nat) (fc : Char) (lf descr : String)
        (dflt : Val) (grp : String) (st1 : Options) (env1 : Env),
        Options.Add st env w v fc lf descr dflt grp = (.ok, st1, env1) →
        envGet env1 v = some dflt) ∧
    (∀ (st : Options) (env : Env) (w v : Nat) (fc : Char) (lf descr : String)
        (db : Bool) (grp : String) (st1 : Options) (env1 : Env),
        Options.AddSwitch st env w v fc lf descr db grp = (.ok, st1, env1) →
        envGet env1 v = some (Val.vBool db)) ∧
    (∀ (w : Nat) (cmds : List RegCmd) (st' : Options) (env' : Env),
        (cmds.map RegCmd.varId).Nodup →
        runRegs w Options.init [] cmds = .ok (st', env') →
        ∀ c ∈ cmds, envGet env' (RegCmd.varId c) = some (RegCmd.dflt c)) := by
  refine ⟨?_, ?_, ?_⟩
  · intro st env w v fc lf descr dflt grp st1 env1 h
    have := applyReg_ok_env w st env (.add v fc lf descr dflt grp) st1 env1
      (by simpa [applyReg] using h)
    rw [this]
    exact envGet_envSet_self env v dflt
  · intro st env w v fc lf descr db grp st1 env1 h
    have := applyReg_ok_env w st env (.addSwitch v fc lf descr db grp) st1 env1
      (by simpa [applyReg] using h)
    rw [this]
    exact envGet_envSet_self env v _
  · intro w cmds st' env' hnodup hrun
    exact (runRegs_env w cmds Options.init [] st' env' hrun).2 hnodup

/-- C10 (witness): the sequence `c10Cmds` registers a string flag with
default `"s"` for variable 0 and a switch with default `true` for
variable 1; after registration each variable holds its default. -/
theorem c10_defaults_assigned_witness :
    ∀ c ∈ c10Cmds,
      envGet [(0, Val.vStr "s"), (1, Val.vBool true)] (RegCmd.varId c) =
        some (RegCmd.dflt c) :=
  c10_defaults_assigned.2.2 80 c10Cmds
    ⟨2, 18, "", [], [⟨none, 1, 97⟩, ⟨none, 2, 98⟩],
      [(97, Setter.assign 0 ValTy.tStr), (98, Setter.toggle 1)], [], 256, "a:b"⟩
    [(0, Val.vStr "s"), (1, Val.vBool true)] (by decide) (by rfl)

/-! ## Claim C7: option-code assignment -/

theorem applyReg_ok_spec (w : Nat) (st : Options) (env : Env) (c : RegCmd)
    (st1 : Options) (env1 : Env)
    (hnn : (RegCmd.flagc c).toNat ≠ 0 ∨ (RegCmd.lf c).length ≠ 0)
    (h : applyReg w st env c = (.ok, st1, env1)) :
    st1.IndentFlag = st.IndentFlag ∧
    st1.IndentDescription = st.IndentDescription ∧
    st1.Header = st.Header ∧
    st1.usage = (if (RegCmd.descr c).length ≠ 0 then
        usageInsert st.usage (RegCmd.grp c)
          (descBlock st.IndentFlag st.IndentDescription w (RegCmd.flagc c) (RegCmd.lf c)
            (RegCmd.descr c) (Options.get_default (RegCmd.dflt c)))
      else st.usage) ∧
    ((∃ nm harg s,
        (RegCmd.flagc c).toNat ≠ 0 ∧
        st.setters.lookup (((RegCmd.flagc c).toNat : Int)) = none ∧
        st1.options = st.options ++ [⟨nm, harg, (((RegCmd.flagc c).toNat : Int))⟩] ∧
        st1.setters = setterInsert st.setters (((RegCmd.flagc c).toNat : Int)) s ∧
        st1.optval = st.optval) ∨
     (∃ nm harg s,
        (RegCmd.flagc c).toNat = 0 ∧
        st1.options = st.options ++ [⟨nm, harg, st.optval⟩] ∧
        st1.setters = setterInsert st.setters st.optval s ∧
        st1.optval = st.optval + 1)) := by
  cases c with
  | add v fc lf d df g =>
    simp only [applyReg, RegCmd.flagc, RegCmd.lf, RegCmd.descr, RegCmd.grp, RegCmd.dflt] at *
    by_cases hc : fc.toNat = 0
    · have hl : lf.length ≠ 0 := by
        rcases hnn with hx | hx
        · exact absurd hc hx
        · exact hx
      by_cases hm : lf ∈ st.long_flags
      · rw [Add_of_add_entry_err st _ env w v fc lf d df g _ _
          (add_entry_eq_err_long_noshort st w uninitOption fc lf d df g hc hl hm)] at h
        simp at h
      · rw [Add_of_add_entry_ok st _ env w v fc lf d df g _
          (add_entry_eq_long_only st w uninitOption fc lf d df g hc hl hm)] at h
        simp only [Prod.mk.injEq] at h
        obtain ⟨-, hst, -⟩ := h
        subst hst
        exact ⟨rfl, rfl, rfl, rfl,
          Or.inr ⟨some lf, 1, Setter.assign v df.ty, hc, rfl, rfl, rfl⟩⟩
    · rcases hlook : st.setters.lookup ((fc.toNat : Int)) with _ | s0
      · by_cases hl0 : lf.length = 0
        · rw [Add_of_add_entry_ok st _ env w v fc lf d df g _
            (add_entry_eq_short_only st w uninitOption fc lf d df g hc hlook hl0)] at h
          simp only [Prod.mk.injEq] at h
          obtain ⟨-, hst, -⟩ := h
          subst hst
          exact ⟨rfl, rfl, rfl, rfl,
            Or.inl ⟨none, 1, Setter.assign v df.ty, hc, rfl, rfl, rfl, rfl⟩⟩
        · by_cases hm : lf ∈ st.long_flags
          · rw [Add_of_add_entry_err st _ env w v fc lf d df g _ _
              (add_entry_eq_err_long_withshort st w uninitOption fc lf d df g hc hlook hl0 hm)] at h
            simp at h
          · rw [Add_of_add_entry_ok st _ env w v fc lf d df g _
              (add_entry_eq_short_long st w uninitOption fc lf d df g hc hlook hl0 hm)] at h
            simp only [Prod.mk.injEq] at h
            obtain ⟨-, hst, -⟩ := h
            subst hst
            exact ⟨rfl, rfl, rfl, rfl,
              Or.inl ⟨some lf, 1, Setter.assign v df.ty, hc, rfl, rfl, rfl, rfl⟩⟩
      · rw [Add_of_add_entry_err st _ env w v fc lf d df g _ _
          (add_entry_eq_err_short st w uninitOption fc lf d df g hc (by rw [hlook]; rfl))] at h
        simp at h
  | addSwitch v fc lf d df g =>
    simp only [applyReg, RegCmd.flagc, RegCmd.lf, RegCmd.descr, RegCmd.grp, RegCmd.dflt] at *
    by_cases hc : fc.toNat = 0
    · have hl : lf.length ≠ 0 := by
        rcases hnn with hx | hx
        · exact absurd hc hx
        · exact hx
      by_cases hm : lf ∈ st.long_flags
      · rw [AddSwitch_of_add_entry_err st _ env w v fc lf d df g _ _
          (add_entry_eq_err_long_noshort st w uninitOption fc lf d (.vBool df) g hc hl hm)] at h
        simp at h
      · rw [AddSwitch_of_add_entry_ok st _ env w v fc lf d df g _
          (add_entry_eq_long_only st w uninitOption fc lf d (.vBool df) g hc hl hm)] at h
        simp only [Prod.mk.injEq] at h
        obtain ⟨-, hst, -⟩ := h
        subst hst
        exact ⟨rfl, rfl, rfl, rfl,
          Or.inr ⟨some lf, 2, Setter.toggle v, hc, rfl, rfl, rfl⟩⟩
    · rcases hlook : st.setters.lookup ((fc.toNat : Int)) with _ | s0
      · by_cases hl0 : lf.length = 0
        · rw [AddSwitch_of_add_entry_ok st _ env w v fc lf d df g _
            (add_entry_eq_short_only st w uninitOption fc lf d (.vBool df) g hc hlook hl0)] at h
          simp only [Prod.mk.injEq] at h
          obtain ⟨-, hst, -⟩ := h
          subst hst
          exact ⟨rfl, rfl, rfl, rfl,
            Or.inl ⟨none, 2, Setter.toggle v, hc, rfl, rfl, rfl, rfl⟩⟩
        · by_cases hm : lf ∈ st.long_flags
          · rw [AddSwitch_of_add_entry_err st _ env w v fc lf d df g _ _
              (add_entry_eq_err_long_withshort st w uninitOption fc lf d (.vBool df) g hc hlook hl0 hm)] at h
            simp at h
          · rw [AddSwitch_of_add_entry_ok st _ env w v fc lf d df g _
              (add_entry_eq_short_long st w uninitOption fc lf d (.vBool df) g hc hlook hl0 hm)] at h
            simp only [Prod.mk.injEq] at h
            obtain ⟨-, hst, -⟩ := h
            subst hst
            exact ⟨rfl, rfl, rfl, rfl,
              Or.inl ⟨some lf, 2, Setter.toggle v, hc, rfl, rfl, rfl, rfl⟩⟩
      · rw [AddSwitch_of_add_entry_err st _ env w v fc lf d df g _ _
          (add_entry_eq_err_short st w uninitOption fc lf d (.vBool df) g hc (by rw [hlook]; rfl))] at h
        simp at h

theorem runRegs_codes (w : Nat) :
    ∀ (cmds : List RegCmd) (st : Options) (env : Env) (st' : Options) (env' : Env),
      (∀ c ∈ cmds, (RegCmd.flagc c).toNat < 256 ∧
        ((RegCmd.flagc c).toNat ≠ 0 ∨ (RegCmd.lf c).length ≠ 0)) →
      256 ≤ st.optval →
      (∀ o ∈ st.options, (st.setters.lookup o.val).isSome = true ∧ o.val < st.optval) →
      runRegs w st env cmds = .ok (st', env') →
      st'.options.map GetoptOption.val =
        st.options.map GetoptOption.val ++ specCodeRule st.optval cmds ∧
      ((st.options.map GetoptOption.val).Nodup →
        (st'.options.map GetoptOption.val).Nodup) := by
  intro cmds
  induction cmds with
  | nil =>
    intro st env st' env' _ _ _ h
    simp only [runRegs] at h
    obtain ⟨h1, h2⟩ : st = st' ∧ env = env' := by simpa using h
    subst h1
    subst h2
    simp [specCodeRule]
  | cons c rest ih =>
    intro st env st' env' hwf hov hinv h
    simp only [runRegs] at h
    rcases happ : applyReg w st env c with ⟨r, st1, env1⟩
    rw [happ] at h
    cases r with
    | err m => simp at h
    | ok =>
      have hwfc := hwf c (List.mem_cons_self c rest)
      have hwfrest : ∀ c' ∈ rest, (RegCmd.flagc c').toNat < 256 ∧
          ((RegCmd.flagc c').toNat ≠ 0 ∨ (RegCmd.lf c').length ≠ 0) :=
        fun c' hc' => hwf c' (List.mem_cons_of_mem c hc')
      obtain ⟨-, -, -, -, hcase⟩ :=
        applyReg_ok_spec w st env c st1 env1 hwfc.2 happ
      rcases hcase with ⟨nm, harg, s, hcne, hlook, hopts, hsetters, hoptval⟩ |
        ⟨nm, harg, s, hc0, hopts, hsetters, hoptval⟩
      · -- short flag: code is the character value, counter unchanged
        have hov1 : 256 ≤ st1.optval := hoptval ▸ hov
        have hfresh : (((RegCmd.flagc c).toNat : Int)) ∉ st.options.map GetoptOption.val := by
          intro hmem
          obtain ⟨o, ho, hval⟩ := List.mem_map.mp hmem
          have := (hinv o ho).1
          rw [hval, hlook] at this
          exact Bool.noConfusion this
        have hinv1 : ∀ o ∈ st1.options,
            (st1.setters.lookup o.val).isSome = true ∧ o.val < st1.optval := by
          intro o ho
          rw [hopts] at ho
          rcases List.mem_append.mp ho with hold | hnew
          · obtain ⟨hs, hv⟩ := hinv o hold
            constructor
            · by_cases he : o.val = (((RegCmd.flagc c).toNat : Int))
              · rw [hsetters, he, lookup_setterInsert_self]
                rfl
              · rw [hsetters, lookup_setterInsert_ne _ _ _ _ he]
                exact hs
            · rw [hoptval]
              exact hv
          · rw [List.mem_singleton.mp hnew]
            constructor
            · rw [hsetters]
              rw [lookup_setterInsert_self]
              rfl
            · rw [hoptval]
              have hlt : ((RegCmd.flagc c).toNat : Int) < 256 := by exact_mod_cast hwfc.1
              show ((RegCmd.flagc c).toNat : Int) < st.optval
              omega
        obtain ⟨ihmap, ihnd⟩ := ih st1 env1 st' env' hwfrest hov1 hinv1 h
        constructor
        · rw [ihmap, hopts, hoptval]
          simp only [List.map_append, List.map_cons, List.map_nil]
          rw [List.append_assoc]
          simp [specCodeRule, hcne]
        · intro hnd
          apply ihnd
          rw [hopts]
          simp only [List.map_append, List.map_cons, List.map_nil]
          exact nodup_append_singleton hnd hfresh
      · -- long-only flag: code is the counter value, counter incremented
        have hov1 : 256 ≤ st1.optval := by omega
        have hfresh : st.optval ∉ st.options.map GetoptOption.val := by
          intro hmem
          obtain ⟨o, ho, hval⟩ := List.mem_map.mp hmem
          have := (hinv o ho).2
          omega
        have hinv1 : ∀ o ∈ st1.options,
            (st1.setters.lookup o.val).isSome = true ∧ o.val < st1.optval := by
          intro o ho
          rw [hopts] at ho
          rcases List.mem_append.mp ho with hold | hnew
          · obtain ⟨hs, hv⟩ := hinv o hold
            constructor
            · by_cases he : o.val = st.optval
              · rw [hsetters, he, lookup_setterInsert_self]
                rfl
              · rw [hsetters, lookup_setterInsert_ne _ _ _ _ he]
                exact hs
            · rw [hoptval]
              omega
          · rw [List.mem_singleton.mp hnew]
            constructor
            · rw [hsetters, lookup_setterInsert_self]
              rfl
            · rw [hoptval]
              show st.optval < st.optval + 1
              omega
        obtain ⟨ihmap, ihnd⟩ := ih st1 env1 st' env' hwfrest hov1 hinv1 h
        constructor
        · rw [ihmap, hopts, hoptval]
          simp only [List.map_append, List.map_cons, List.map_nil]
          rw [List.append_assoc]
          simp [specCodeRule, hc0]
        · intro hnd
          apply ihnd
          rw [hopts]
          simp only [List.map_append, List.map_cons, List.map_nil]
          exact nodup_append_singleton hnd hfresh

/-- C7: the `Options()` constructor seeds the instance counter at 256,
and for a registration sequence in which every call supplies a short
flag character (a byte, hence below 256) or a nonempty long flag, the
option codes of the recorded entries follow the claimed rule -
`specCodeRule`: the flag's own character value when a short flag is
given, otherwise the current counter value with the counter incremented
afterwards - and consequently no two entries share a code. -/
theorem c7_option_codes :
    Options.init.optval = 256 ∧
    ∀ (w : Nat) (cmds : List RegCmd) (st' : Options) (env' : Env),
      (∀ c ∈ cmds, (RegCmd.flagc c).toNat < 256 ∧
        ((RegCmd.flagc c).toNat ≠ 0 ∨ (RegCmd.lf c).length ≠ 0)) →
      runRegs w Options.init [] cmds = .ok (st', env') →
      st'.options.map GetoptOption.val = specCodeRule 256 cmds ∧
      (st'.options.map GetoptOption.val).Nodup := by
  refine ⟨rfl, ?_⟩
  intro w cmds st' env' hwf hrun
  obtain ⟨hmap, hnd⟩ := runRegs_codes w cmds Options.init [] st' env' hwf
    (le_of_eq (by rfl))
    (by
      intro o ho
      exact absurd ho (List.not_mem_nil o)) hrun
  constructor
  · simpa [Options.init] using hmap
  · exact hnd (by simp [Options.init])

/-- C7 (witness): the sequence `c7Cmds` - short `'a'` (97), a long-only
flag, short `'c'` (99) - yields codes `[97, 256, 99]` following the
rule, pairwise distinct. -/
theorem c7_option_codes_witness :
    (⟨2, 18, "", ["long"],
      [⟨none, 1, 97⟩, ⟨some "long", 1, 256⟩, ⟨none, 2, 99⟩],
      [(97, Setter.assign 0 ValTy.tStr), (256, Setter.assign 1 ValTy.tNat),
       (99, Setter.toggle 2)], [], 257, "a::c"⟩ : Options).options.map GetoptOption.val =
        specCodeRule 256 c7Cmds ∧
    ((⟨2, 18, "", ["long"],
      [⟨none, 1, 97⟩, ⟨some "long", 1, 256⟩, ⟨none, 2, 99⟩],
      [(97, Setter.assign 0 ValTy.tStr), (256, Setter.assign 1 ValTy.tNat),
       (99, Setter.toggle 2)], [], 257, "a::c"⟩ : Options).options.map
        GetoptOption.val).Nodup :=
  c7_option_codes.2 80 c7Cmds _
    [(0, Val.vStr ""), (1, Val.vNat 0), (2, Val.vBool false)] (by decide) (by rfl)

theorem splitEq_no_eq : ∀ l : List Char, '=' ∉ l → splitEq l = (l, none) := by
  intro l
  induction l with
  | nil => intro _; rfl
  | cons c rest ih =>
    intro h
    have hc : c ≠ '=' := fun hh => h (hh ▸ List.mem_cons_self c rest)
    have hr : '=' ∉ rest := fun hh => h (List.mem_cons_of_mem c hh)
    rw [show splitEq (c :: rest) = (c :: (splitEq rest).1, (splitEq rest).2) from by
      conv =>
        lhs
        rw [splitEq.eq_def]
      simp [hc]]
    rw [ih hr]

/-- C2 (amended): `Parse` dispatches the getopt event stream in order:
it returns `true` when every reported code has a setter (consuming the
whole stream), and returns `false` at the first code without a setter -
unrecognised options and getopt's other error reports (`'?'` = 63, or
`':'` = 58 in quiet mode) all surface this way, including a registered
option whose required argument is missing - leaving the environment as
produced by the events before the failing one, so variables whose flags
were not successfully processed keep their prior (default) values.  An
unrecognised long option indeed contributes the event `(63, none)`. -/
theorem c2_parse_error_behaviour :
    (∀ (st : Options) (env : Env) (args : List String),
      Options.Parse st env args = dispatchLoop st.setters env (getoptStream st args)) ∧
    (∀ (setters : List (Int × Setter)) (env : Env) (stream : List (Int × Option String)),
      (∀ e ∈ stream, (setters.lookup e.1).isSome = true) →
      (dispatchLoop setters env stream).1 = true) ∧
    (∀ (setters : List (Int × Setter)) (env : Env)
        (pre : List (Int × Option String)) (e : Int × Option String)
        (rest : List (Int × Option String)),
      (∀ x ∈ pre, (setters.lookup x.1).isSome = true) →
      setters.lookup e.1 = none →
      dispatchLoop setters env (pre ++ e :: rest) = (false, dispatchAll setters env pre)) ∧
    (∀ (st : Options) (l : List Char) (rest : List String),
      l ≠ [] → '=' ∉ l → longCandidates st.options l = [] →
      getoptStream st (String.mk ('-' :: '-' :: l) :: rest) =
        ((63 : Int), none) :: getoptStream st rest) := by
  refine ⟨fun _ _ _ => rfl, ?_, ?_, ?_⟩
  · intro setters env stream
    induction stream generalizing env with
    | nil => intro _; rfl
    | cons e rest ih =>
      intro h
      have he := h e (List.mem_cons_self e rest)
      rcases hl : setters.lookup e.1 with _ | s
      · rw [hl] at he
        exact Bool.noConfusion he
      · simp only [dispatchLoop, hl]
        exact ih _ (fun x hx => h x (List.mem_cons_of_mem e hx))
  · intro setters env pre e rest hpre he
    induction pre generalizing env with
    | nil =>
      simp only [List.nil_append, dispatchLoop, he, dispatchAll, List.foldl_nil]
    | cons x xs ih =>
      have hx := hpre x (List.mem_cons_self x xs)
      rcases hl : setters.lookup x.1 with _ | s
      · rw [hl] at hx
        exact Bool.noConfusion hx
      · simp only [List.cons_append, dispatchLoop, hl, dispatchAll, List.foldl_cons]
        exact ih _ (fun y hy => hpre y (List.mem_cons_of_mem x hy))
  · intro st l rest hne heq hcand
    obtain ⟨b0, body, rfl⟩ : ∃ b0 body, l = b0 :: body := by
      cases l with
      | nil => exact absurd rfl hne
      | cons a as => exact ⟨a, as, rfl⟩
    show streamGo _ _ _ (rest.length + 1) _ = _
    rw [streamGo]
    simp only [String.data]
    rw [splitEq_no_eq _ heq]
    simp only [hcand]
    rfl

/-- C2 (witness): with `-o, --output` registered, a recognised event
stream dispatches to `true`; the unrecognised code 63 makes the
dispatch loop stop with `false` and an untouched environment; and the
unknown long option `--unknown` produces the event `(63, none)`. -/
theorem c2_parse_error_behaviour_witness :
    (dispatchLoop c2Reg.1.setters c2Reg.2 [(111, some "x")]).1 = true ∧
    dispatchLoop c2Reg.1.setters c2Reg.2 [((63 : Int), none)] =
      (false, dispatchAll c2Reg.1.setters c2Reg.2 []) ∧
    getoptStream c2Reg.1 [String.mk ('-' :: '-' :: "unknown".data)] =
      ((63 : Int), none) :: getoptStream c2Reg.1 [] :=
  ⟨c2_parse_error_behaviour.2.1 c2Reg.1.setters c2Reg.2 [(111, some "x")] (by decide),
   c2_parse_error_behaviour.2.2.1 c2Reg.1.setters c2Reg.2 [] ((63 : Int), none) []
     (by
       intro x hx
       exact absurd hx (List.not_mem_nil x)) (by decide),
   c2_parse_error_behaviour.2.2.2 c2Reg.1 "unknown".data [] (by decide) (by decide)
     (by decide)⟩

/-! ## Order lemmas for the usage map -/

theorem charToNat_inj (x y : Char) (h : x.toNat = y.toNat) : x = y :=
  Char.ext (UInt32.ext h)

theorem charListLt_irrefl : ∀ l : List Char, charListLt l l = false := by
  intro l
  induction l with
  | nil => rfl
  | cons a as ih => simp [charListLt, ih]

theorem charListLt_trans : ∀ a b c : List Char,
    charListLt a b = true → charListLt b c = true → charListLt a c = true := by
  intro a
  induction a with
  | nil =>
    intro b c hab hbc
    cases c with
    | nil =>
      cases b with
      | nil => exact hbc
      | cons y ys => exact absurd hbc (by simp [charListLt])
    | cons z zs => simp [charListLt]
  | cons x xs ih =>
    intro b c hab hbc
    cases b with
    | nil => exact absurd hab (by simp [charListLt])
    | cons y ys =>
      cases c with
      | nil => exact absurd hbc (by simp [charListLt])
      | cons z zs =>
        simp only [charListLt] at hab hbc ⊢
        by_cases h1 : x.toNat < y.toNat
        · by_cases h2 : y.toNat < z.toNat
          · simp [show x.toNat < z.toNat from by omega]
          · by_cases h3 : z.toNat < y.toNat
            · rw [if_neg h2, if_pos h3] at hbc
              exact absurd hbc (by simp)
            · have : y.toNat = z.toNat := by omega
              simp [show x.toNat < z.toNat from by omega]
        · by_cases h4 : y.toNat < x.toNat
          · rw [if_neg h1, if_pos h4] at hab
            exact absurd hab (by simp)
          · have hxy : x.toNat = y.toNat := by omega
            rw [if_neg h1, if_neg h4] at hab
            by_cases h2 : y.toNat < z.toNat
            · simp [show x.toNat < z.toNat from by omega]
            · by_cases h3 : z.toNat < y.toNat
              · rw [if_neg h2, if_pos h3] at hbc
                exact absurd hbc (by simp)
              · rw [if_neg h2, if_neg h3] at hbc
                have hxz : ¬ x.toNat < z.toNat := by omega
                have hzx : ¬ z.toNat < x.toNat := by omega
                rw [if_neg hxz, if_neg hzx]
                exact ih ys zs hab hbc

theorem charListLt_total : ∀ a b : List Char,
    a = b ∨ charListLt a b = true ∨ charListLt b a = true := by
  intro a
  induction a with
  | nil =>
    intro b
    cases b with
    | nil => exact Or.inl rfl
    | cons y ys => exact Or.inr (Or.inl (by simp [charListLt]))
  | cons x xs ih =>
    intro b
    cases b with
    | nil => exact Or.inr (Or.inr (by simp [charListLt]))
    | cons y ys =>
      by_cases h1 : x.toNat < y.toNat
      · exact Or.inr (Or.inl (by simp [charListLt, h1]))
      · by_cases h2 : y.toNat < x.toNat
        · exact Or.inr (Or.inr (by simp [charListLt, h2]))
        · have hxy : x = y := charToNat_inj x y (by omega)
          subst hxy
          rcases ih ys with heq | hlt | hgt
          · exact Or.inl (heq ▸ rfl)
          · exact Or.inr (Or.inl (by simp [charListLt, hlt]))
          · exact Or.inr (Or.inr (by simp [charListLt, hgt]))

theorem strLt_irrefl (a : String) : strLt a a = false := charListLt_irrefl a.data

theorem strLt_trans (a b c : String) (h1 : strLt a b = true) (h2 : strLt b c = true) :
    strLt a c = true := charListLt_trans a.data b.data c.data h1 h2

theorem strLt_total (a b : String) : a = b ∨ strLt a b = true ∨ strLt b a = true := by
  rcases charListLt_total a.data b.data with heq | h | h
  · cases a with
    | mk da =>
      cases b with
      | mk db =>
        exact Or.inl (congrArg String.mk (by simpa using heq))
  · exact Or.inr (Or.inl h)
  · exact Or.inr (Or.inr h)

theorem strLt_ne (a b : String) (h : strLt a b = true) : a ≠ b := by
  intro he
  subst he
  rw [strLt_irrefl] at h
  exact Bool.noConfusion h

theorem lookupStr_cons_self {β : Type} (a : String) (x : β) (t : List (String × β)) :
    List.lookup a ((a, x) :: t) = some x := by
  simp [List.lookup]

theorem lookupStr_cons_ne {β : Type} (a b : String) (x : β) (t : List (String × β))
    (h : b ≠ a) : List.lookup b ((a, x) :: t) = List.lookup b t := by
  simp [List.lookup, beq_false_of_ne h]

theorem lookupStr_none {β : Type} : ∀ (u : List (String × β)) (g : String),
    (∀ p ∈ u, g ≠ p.1) → u.lookup g = none := by
  intro u
  induction u with
  | nil => intro g _; rfl
  | cons p t ih =>
    intro g h
    obtain ⟨k, x⟩ := p
    rw [lookupStr_cons_ne _ _ _ _ (h (k, x) (List.mem_cons_self _ _))]
    exact ih g (fun q hq => h q (List.mem_cons_of_mem _ hq))

theorem chain_strLt_forall {x : String × List String} :
    ∀ (l : List (String × List String)),
      List.Chain' (fun a b2 => strLt a.1 b2.1 = true) (x :: l) →
      ∀ y ∈ l, strLt x.1 y.1 = true := by
  intro l
  induction l generalizing x with
  | nil =>
    intro _ y hy
    exact absurd hy (List.not_mem_nil y)
  | cons z l2 ih =>
    intro h y hy
    rw [List.chain'_cons] at h
    rcases List.mem_cons.mp hy with rfl | hy2
    · exact h.1
    · exact strLt_trans _ _ _ h.1 (ih h.2 y hy2)

theorem usageInsert_sorted : ∀ (u : List (String × List String)) (g b : String),
    List.Chain' (fun a b2 => strLt a.1 b2.1 = true) u →
    List.Chain' (fun a b2 => strLt a.1 b2.1 = true) (usageInsert u g b) := by
  intro u
  induction u with
  | nil =>
    intro g b _
    simp [usageInsert]
  | cons p rest ih =>
    intro g b hs
    obtain ⟨k, bs⟩ := p
    by_cases hk : k = g
    · subst hk
      simp only [usageInsert, eq_self_iff_true, if_true]
      rw [List.chain'_cons'] at hs ⊢
      exact hs
    · simp only [usageInsert, if_neg hk]
      by_cases hlt : strLt g k = true
      · simp only [if_pos hlt]
        rw [List.chain'_cons]
        exact ⟨hlt, hs⟩
      · simp only [if_neg hlt]
        have hkg : strLt k g = true := by
          rcases strLt_total g k with heq | h | h
          · exact absurd heq.symm hk
          · exact absurd h hlt
          · exact h
        rw [List.chain'_cons'] at hs
        rw [List.chain'_cons']
        refine ⟨?_, ih g b hs.2⟩
        intro y hy
        cases rest with
        | nil =>
          simp only [usageInsert, List.head?] at hy
          obtain rfl := Option.mem_some_iff.mp hy
          exact hkg
        | cons q rest2 =>
          obtain ⟨k2, bs2⟩ := q
          have hk2 : strLt k k2 = true := hs.1 (k2, bs2) rfl
          by_cases hkk2 : k2 = g
          · subst hkk2
            simp only [usageInsert, if_pos rfl, List.head?] at hy
            obtain rfl := Option.mem_some_iff.mp hy
            exact hk2
          · by_cases hlt2 : strLt g k2 = true
            · simp only [usageInsert, if_neg hkk2, if_pos hlt2, List.head?] at hy
              obtain rfl := Option.mem_some_iff.mp hy
              exact hkg
            · simp only [usageInsert, if_neg hkk2, if_neg hlt2, List.head?] at hy
              obtain rfl := Option.mem_some_iff.mp hy
              exact hk2

theorem usageInsert_lookup : ∀ (u : List (String × List String)) (g b : String),
    List.Chain' (fun a b2 => strLt a.1 b2.1 = true) u →
    ∀ g', ((usageInsert u g b).lookup g').getD [] =
      if g' = g then (u.lookup g').getD [] ++ [b] else (u.lookup g').getD [] := by
  intro u
  induction u with
  | nil =>
    intro g b _ g'
    show ((([(g, [b])] : List (String × List String))).lookup g').getD [] = _
    by_cases hg : g' = g
    · subst hg
      rw [lookupStr_cons_self]
      simp [List.lookup]
    · rw [lookupStr_cons_ne _ _ _ _ hg, if_neg hg]
  | cons p rest ih =>
    intro g b hs g'
    obtain ⟨k, bs⟩ := p
    by_cases hk : k = g
    · subst hk
      simp only [usageInsert, eq_self_iff_true, if_true]
      by_cases hg : g' = k
      · subst hg
        simp [lookupStr_cons_self]
      · simp [lookupStr_cons_ne _ _ _ _ hg, hg]
    · simp only [usageInsert, if_neg hk]
      by_cases hlt : strLt g k = true
      · simp only [if_pos hlt]
        by_cases hg : g' = g
        · subst hg
          rw [lookupStr_cons_self]
          have hnone : ((k, bs) :: rest).lookup g' = none := by
            apply lookupStr_none
            intro q hq
            rcases List.mem_cons.mp hq with rfl | hq2
            · exact strLt_ne _ _ hlt
            · exact strLt_ne _ _
                (strLt_trans _ _ _ hlt (chain_strLt_forall rest hs q hq2))
          rw [hnone]
          simp
        · rw [lookupStr_cons_ne _ _ _ _ hg, if_neg hg]
      · simp only [if_neg hlt]
        rw [List.chain'_cons'] at hs
        by_cases hg : g' = k
        · subst hg
          rw [lookupStr_cons_self, lookupStr_cons_self]
          have : g' ≠ g := hk
          rw [if_neg this]
        · rw [lookupStr_cons_ne _ _ _ _ hg, lookupStr_cons_ne _ _ _ _ hg]
          exact ih g b hs.2 g'

theorem runRegs_usage (w : Nat) :
    ∀ (cmds : List RegCmd) (st : Options) (env : Env) (st' : Options) (env' : Env),
      (∀ c ∈ cmds, (RegCmd.flagc c).toNat ≠ 0 ∨ (RegCmd.lf c).length ≠ 0) →
      List.Chain' (fun a b2 => strLt a.1 b2.1 = true) st.usage →
      runRegs w st env cmds = .ok (st', env') →
      st'.IndentFlag = st.IndentFlag ∧
      st'.IndentDescription = st.IndentDescription ∧
      st'.Header = st.Header ∧
      List.Chain' (fun a b2 => strLt a.1 b2.1 = true) st'.usage ∧
      ∀ g, (st'.usage.lookup g).getD [] =
        (st.usage.lookup g).getD [] ++
          specGroupBlocks st.IndentFlag st.IndentDescription w g cmds := by
  intro cmds
  induction cmds with
  | nil =>
    intro st env st' env' _ hsort h
    simp only [runRegs] at h
    obtain ⟨h1, h2⟩ : st = st' ∧ env = env' := by simpa using h
    subst h1
    subst h2
    exact ⟨rfl, rfl, rfl, hsort, fun g => by simp [specGroupBlocks]⟩
  | cons c rest ih =>
    intro st env st' env' hwf hsort h
    simp only [runRegs] at h
    rcases happ : applyReg w st env c with ⟨r, st1, env1⟩
    rw [happ] at h
    cases r with
    | err m => simp at h
    | ok =>
      have hwfc := hwf c (List.mem_cons_self c rest)
      have hwfrest : ∀ c' ∈ rest,
          (RegCmd.flagc c').toNat ≠ 0 ∨ (RegCmd.lf c').length ≠ 0 :=
        fun c' hc' => hwf c' (List.mem_cons_of_mem c hc')
      obtain ⟨hIF, hID, hH, husage, -⟩ :=
        applyReg_ok_spec w st env c st1 env1 hwfc happ
      by_cases hd : (RegCmd.descr c).length = 0
      · rw [if_neg (by simpa using hd)] at husage
        have hsort1 : List.Chain' (fun a b2 => strLt a.1 b2.1 = true) st1.usage := by
          rw [husage]
          exact hsort
        obtain ⟨i1, i2, i3, i4, i5⟩ := ih st1 env1 st' env' hwfrest hsort1 h
        refine ⟨i1.trans hIF, i2.trans hID, i3.trans hH, i4, ?_⟩
        intro g
        rw [i5 g, husage, hIF, hID]
        simp [specGroupBlocks, hd]
      · rw [if_pos (by simpa using hd)] at husage
        have hsort1 : List.Chain' (fun a b2 => strLt a.1 b2.1 = true) st1.usage := by
          rw [husage]
          exact usageInsert_sorted st.usage _ _ hsort
        obtain ⟨i1, i2, i3, i4, i5⟩ := ih st1 env1 st' env' hwfrest hsort1 h
        refine ⟨i1.trans hIF, i2.trans hID, i3.trans hH, i4, ?_⟩
        intro g
        rw [i5 g, husage, hIF, hID]
        rw [usageInsert_lookup st.usage _ _ hsort g]
        by_cases hg : RegCmd.grp c = g
        · rw [if_pos hg.symm, List.append_assoc]
          have hspec : specGroupBlocks st.IndentFlag st.IndentDescription w g (c :: rest) =
              descBlock st.IndentFlag st.IndentDescription w (RegCmd.flagc c) (RegCmd.lf c)
                (RegCmd.descr c) (Options.get_default (RegCmd.dflt c)) ::
                specGroupBlocks st.IndentFlag st.IndentDescription w g rest := by
            simp [specGroupBlocks, hg, hd]
          rw [hspec]
          rfl
        · rw [if_neg (fun hh => hg hh.symm)]
          have hspec : specGroupBlocks st.IndentFlag st.IndentDescription w g (c :: rest) =
              specGroupBlocks st.IndentFlag st.IndentDescription w g rest := by
            simp [specGroupBlocks, hg]
          rw [hspec]

/-- C5 (amended): `Usage()` emits the optional header verbatim when
non-empty, then exactly one section per distinct group in ascending
lexicographic key order - the iteration order of the `std::map`, not
first-registration order - each section consisting of a group header
line (suppressed for the empty group and the sentinel group `"_"`)
followed by that group's description blocks in registration order,
followed by a blank separator line. -/
theorem c5_usage_sections :
    (∀ (w : Nat) (cmds : List RegCmd) (st' : Options) (env' : Env),
      (∀ c ∈ cmds, (RegCmd.flagc c).toNat ≠ 0 ∨ (RegCmd.lf c).length ≠ 0) →
      runRegs w Options.init [] cmds = .ok (st', env') →
      List.Chain' (fun a b2 => strLt a.1 b2.1 = true) st'.usage ∧
      (∀ g, ((st'.usage.lookup g).getD []) = specGroupBlocks 2 18 w g cmds) ∧
      Options.Usage st' = String.join (st'.usage.map sectionText)) ∧
    (∀ st2 : Options, st2.Header.length ≠ 0 →
      Options.Usage st2 = st2.Header ++ String.join (st2.usage.map sectionText)) ∧
    (∀ bs, sectionText ("_", bs) = String.join (bs.map (· ++ "\n")) ++ "\n") ∧
    (∀ bs, sectionText ("", bs) = String.join (bs.map (· ++ "\n")) ++ "\n") ∧
    (∀ (g : String) (bs : List String), g.length ≠ 0 → g ≠ "_" →
      sectionText (g, bs) = g ++ ":\n" ++ (String.join (bs.map (· ++ "\n")) ++ "\n")) := by
  refine ⟨?_, ?_, ?_, ?_, ?_⟩
  · intro w cmds st' env' hwf hrun
    obtain ⟨hIF, hID, hH, hsort, hlook⟩ :=
      runRegs_usage w cmds Options.init [] st' env' hwf (by simp [Options.init]) hrun
    refine ⟨hsort, ?_, ?_⟩
    · intro g
      rw [hlook g]
      simp [Options.init, List.lookup]
    · unfold Options.Usage
      rw [hH]
      simp [Options.init]
  · intro st2 h2
    unfold Options.Usage
    rw [if_pos h2]
  · intro bs
    simp [sectionText]
  · intro bs
    simp [sectionText]
  · intro g bs h1 h2
    simp only [sectionText, h1, h2]
    rw [if_pos ⟨h1, h2⟩]
    rw [String.append_assoc]

/-- C5 (witness): applying the section description to the two-group
registration `c5Cmds` (groups first appearing in order `"b"`, `"a"`). -/
theorem c5_usage_sections_witness :
    List.Chain' (fun a b2 => strLt a.1 b2.1 = true) c5St.usage ∧
    (∀ g, ((c5St.usage.lookup g).getD []) = specGroupBlocks 2 18 80 g c5Cmds) ∧
    Options.Usage c5St = String.join (c5St.usage.map sectionText) :=
  c5_usage_sections.1 80 c5Cmds c5St [(0, Val.vBool false), (1, Val.vBool false)]
    (by decide) (by rfl)

/-! ## Wrap-loop lemmas -/

theorem drop_takeWhile_length (q : Char → Bool) :
    ∀ l : List Char, l.drop ((l.takeWhile q).length) = l.dropWhile q := by
  intro l
  induction l with
  | nil => rfl
  | cons a as ih =>
    by_cases h : q a
    · simp [List.takeWhile_cons, List.dropWhile_cons, h, ih]
    · simp [List.takeWhile_cons, List.dropWhile_cons, h]

theorem takeWhile_length_le (q : Char → Bool) :
    ∀ l : List Char, (l.takeWhile q).length ≤ l.length := by
  intro l
  induction l with
  | nil => simp
  | cons a as ih =>
    by_cases h : q a
    · simp only [List.takeWhile_cons, h, if_true, List.length_cons]
      omega
    · simp [List.takeWhile_cons, h]

theorem drop_skipSp (d : List Char) (p : Nat) :
    d.drop (skipSp d p) = (d.drop p).dropWhile (fun c => c = ' ') := by
  unfold skipSp
  rw [← List.drop_drop]
  exact drop_takeWhile_length _ (d.drop p)

theorem skipSp_le (d : List Char) (p : Nat) (h : p ≤ d.length) :
    skipSp d p ≤ d.length := by
  unfold skipSp
  have h1 := takeWhile_length_le (fun c => c = ' ') (d.drop p)
  rw [List.length_drop] at h1
  omega

theorem skipSp_ge (d : List Char) (p : Nat) : p ≤ skipSp d p := Nat.le_add_right _ _

theorem int32of_small (n : Nat) (h : n < 2147483648) : int32of n = (n : Int) := by
  unfold int32of
  rw [Nat.mod_eq_of_lt (by omega)]
  rw [if_pos (by omega)]

theorem sizeT_natCast (n : Nat) (h : n < 2147483648) : sizeT ((n : Int)) = n := by
  unfold sizeT
  omega

theorem wrapEmit_stop (d : List Char) (descPos cw : Nat) :
    ∀ (fuel : Nat) (i : Int), d.length ≤ sizeT i → wrapEmit d descPos cw fuel i = "" := by
  intro fuel i h
  cases fuel with
  | zero => rfl
  | succ f =>
    unfold wrapEmit
    rw [if_neg (by omega)]

theorem specWrapGo_ne_nil (cw : Nat) : ∀ (fuel : Nat) (l : List Char),
    specWrapGo cw fuel l ≠ [] := by
  intro fuel l
  cases fuel with
  | zero => exact fun h => List.noConfusion h
  | succ f =>
    unfold specWrapGo
    by_cases h : (l.dropWhile (fun c => c = ' ')).length ≤ cw ∨ cw = 0
    · rw [if_pos h]
      exact fun hh => List.noConfusion hh
    · rw [if_neg h]
      exact fun hh => List.noConfusion hh

theorem specRender_cons (descPos : Nat) (c : List Char) (rest : List (List Char))
    (h : rest ≠ []) :
    specRender descPos (c :: rest) =
      String.mk c ++ "\n" ++ spacesStr descPos ++ specRender descPos rest := by
  cases rest with
  | nil => exact absurd rfl h
  | cons r rs => rfl

theorem specWrapGo_fuel (cw : Nat) (hcw : 1 ≤ cw) :
    ∀ (f1 : Nat) (l : List Char) (f2 : Nat), l.length ≤ f1 → l.length ≤ f2 →
      specWrapGo cw f1 l = specWrapGo cw f2 l := by
  intro f1
  induction f1 with
  | zero =>
    intro l f2 h1 _
    have hl : l = [] := List.eq_nil_of_length_eq_zero (by omega)
    subst hl
    cases f2 with
    | zero => rfl
    | succ m =>
      unfold specWrapGo
      rw [if_pos (by simp)]
  | succ n ih =>
    intro l f2 h1 h2
    cases f2 with
    | zero =>
      have hl : l = [] := List.eq_nil_of_length_eq_zero (by omega)
      subst hl
      unfold specWrapGo
      rw [if_pos (by simp)]
    | succ m =>
      unfold specWrapGo
      by_cases h : (l.dropWhile (fun c => c = ' ')).length ≤ cw ∨ cw = 0
      · rw [if_pos h, if_pos h]
      · rw [if_neg h, if_neg h]
        push_neg at h
        have hlen : ((l.dropWhile (fun c => c = ' ')).drop cw).length ≤ l.length - 1 := by
          have hd : (l.dropWhile (fun c => c = ' ')).length ≤ l.length :=
            (List.dropWhile_sublist _).length_le
          simp only [List.length_drop]
          omega
        rw [ih ((l.dropWhile (fun c => c = ' ')).drop cw) m (by omega) (by omega)]

theorem wrapEmit_succ (d : List Char) (descPos cw fuel : Nat) (i : Int) :
    wrapEmit d descPos cw (fuel + 1) i =
      if sizeT i < d.length then
        (if (skipSp d (sizeT i) + cw) % 4294967296 < d.length then
          String.mk ((d.drop (skipSp d (sizeT i))).take cw) ++ "\n" ++ spacesStr descPos ++
            wrapEmit d descPos cw fuel (int32of (skipSp d (sizeT i) + cw))
        else
          String.mk (d.drop (skipSp d (sizeT i))) ++
            wrapEmit d descPos cw fuel (int32of (skipSp d (sizeT i) + cw)))
      else "" := rfl

theorem specWrapGo_succ (cw fuel : Nat) (l : List Char) :
    specWrapGo cw (fuel + 1) l =
      if (l.dropWhile (fun c => c = ' ')).length ≤ cw ∨ cw = 0 then
        [l.dropWhile (fun c => c = ' ')]
      else
        ((l.dropWhile (fun c => c = ' ')).take cw) ::
          specWrapGo cw fuel ((l.dropWhile (fun c => c = ' ')).drop cw) := rfl

theorem wrapEmit_spec (d : List Char) (descPos cw : Nat) (hcw : 1 ≤ cw)
    (hbig : d.length + cw < 2147483648) :
    ∀ (fuel i : Nat), i < 2147483648 → d.length - i ≤ fuel →
      wrapEmit d descPos cw (fuel + 1) ((i : Int)) =
        specRender descPos (specWrapGo cw fuel (d.drop i)) := by
  intro fuel
  induction fuel with
  | zero =>
    intro i hi hle
    rw [wrapEmit_stop d descPos cw 1 ((i : Int)) (by rw [sizeT_natCast i hi]; omega)]
    rw [List.drop_eq_nil_of_le (by omega)]
    rfl
  | succ f ih =>
    intro i hi hle
    by_cases hlt : i < d.length
    · rw [wrapEmit_succ]
      rw [sizeT_natCast i hi]
      rw [if_pos hlt]
      have hjle : skipSp d i ≤ d.length := skipSp_le d i (by omega)
      have hji : i ≤ skipSp d i := skipSp_ge d i
      have hjcws : skipSp d i + cw < 2147483648 := by omega
      have hmod : (skipSp d i + cw) % 4294967296 = skipSp d i + cw :=
        Nat.mod_eq_of_lt (by omega)
      rw [hmod]
      have hdropj : d.drop (skipSp d i) = (d.drop i).dropWhile (fun c => c = ' ') :=
        drop_skipSp d i
      by_cases hcond : skipSp d i + cw < d.length
      · rw [if_pos hcond]
        rw [int32of_small _ hjcws]
        rw [ih (skipSp d i + cw) hjcws (by omega)]
        have hlen' : ¬ (((d.drop i).dropWhile (fun c => c = ' ')).length ≤ cw ∨ cw = 0) := by
          rw [← hdropj]
          simp only [List.length_drop]
          push_neg
          omega
        rw [specWrapGo_succ, if_neg hlen']
        rw [← hdropj]
        have hdd : (d.drop (skipSp d i)).drop cw = d.drop (skipSp d i + cw) := by
          rw [List.drop_drop]
        rw [hdd]
        rw [specRender_cons _ _ _ (specWrapGo_ne_nil cw f _)]
      · rw [if_neg hcond]
        rw [int32of_small _ hjcws]
        rw [wrapEmit_stop d descPos cw (f + 1) _ (by rw [sizeT_natCast _ hjcws]; omega)]
        have hfin : ((d.drop i).dropWhile (fun c => c = ' ')).length ≤ cw := by
          rw [← hdropj]
          simp only [List.length_drop]
          omega
        rw [specWrapGo_succ, if_pos (Or.inl hfin)]
        rw [← hdropj]
        show String.mk (d.drop (skipSp d i)) ++ "" = specRender descPos [d.drop (skipSp d i)]
        rw [String.append_empty]
        rfl
    · rw [wrapEmit_stop d descPos cw (f + 2) ((i : Int)) (by rw [sizeT_natCast i hi]; omega)]
      rw [List.drop_eq_nil_of_le (by omega)]
      rw [specWrapGo_succ, if_pos (by simp)]
      rfl

theorem specWrapGo_chunk_le (cw : Nat) (hcw : 1 ≤ cw) :
    ∀ (fuel : Nat) (l : List Char), l.length ≤ fuel →
      ∀ ch ∈ specWrapGo cw fuel l, ch.length ≤ cw := by
  intro fuel
  induction fuel with
  | zero =>
    intro l hl ch hch
    have : l = [] := List.eq_nil_of_length_eq_zero (by omega)
    subst this
    obtain rfl := List.mem_singleton.mp hch
    simp
  | succ f ih =>
    intro l hl ch hch
    rw [specWrapGo_succ] at hch
    by_cases hc : (l.dropWhile (fun c => c = ' ')).length ≤ cw ∨ cw = 0
    · rw [if_pos hc] at hch
      obtain rfl := List.mem_singleton.mp hch
      rcases hc with h | h
      · exact h
      · omega
    · rw [if_neg hc] at hch
      push_neg at hc
      rcases List.mem_cons.mp hch with rfl | hmem
      · rw [List.length_take]
        exact Nat.min_le_left _ _
      · have hd : (l.dropWhile (fun c => c = ' ')).length ≤ l.length :=
            (List.dropWhile_sublist _).length_le
        exact ih _ (by simp only [List.length_drop]; omega) ch hmem

theorem dropWhile_head_not (q : Char → Bool) :
    ∀ (l : List Char) (c : Char), (l.dropWhile q).head? = some c → q c = false := by
  intro l
  induction l with
  | nil =>
    intro c h
    exact absurd h (by simp)
  | cons a as ih =>
    intro c h
    by_cases ha : q a
    · rw [List.dropWhile_cons, if_pos ha] at h
      exact ih c h
    · rw [List.dropWhile_cons, if_neg ha] at h
      simp only [List.head?_cons, Option.some.injEq] at h
      subst h
      simpa using ha

theorem specWrapGo_head_not_space (cw : Nat) :
    ∀ (fuel : Nat) (l ch : List Char) (c : Char),
      ch ∈ specWrapGo cw fuel l → ch.head? = some c → c ≠ ' ' := by
  intro fuel
  induction fuel with
  | zero =>
    intro l ch c hch hh
    obtain rfl := List.mem_singleton.mp hch
    have := dropWhile_head_not (fun c => c = ' ') l c hh
    simpa using this
  | succ f ih =>
    intro l ch c hch hh
    rw [specWrapGo_succ] at hch
    by_cases hc : (l.dropWhile (fun c => c = ' ')).length ≤ cw ∨ cw = 0
    · rw [if_pos hc] at hch
      obtain rfl := List.mem_singleton.mp hch
      have := dropWhile_head_not (fun c => c = ' ') l c hh
      simpa using this
    · rw [if_neg hc] at hch
      push_neg at hc
      rcases List.mem_cons.mp hch with rfl | hmem
      · rcases hdw : l.dropWhile (fun c => c = ' ') with _ | ⟨x, rest⟩
        · rw [hdw] at hh
          simp at hh
        · rw [hdw] at hh
          rcases cw with _ | cw2
          · omega
          · simp only [List.take_succ_cons, List.head?_cons, Option.some.injEq] at hh
            subst hh
            have := dropWhile_head_not (fun c => c = ' ') l x (by rw [hdw]; rfl)
            simpa using this
      · exact ih _ ch c hmem hh

/-- C9 (amended): the description layout of `add_entry` behaves as
claimed with one proviso forced by unsigned arithmetic.  The 30% test
compares `width - prefix` computed in `size_t`: when the padded prefix
fits the terminal the start column is the prefix length exactly when
the remaining width clears the 30% threshold (with the exact rational
value of the float literal `0.3f`), and otherwise falls back to
`IndentFlag + 2`; but when the prefix exceeds the terminal width the
subtraction wraps around, the test always passes, and the description
starts at the prefix column (the counterexample's single-line output).
The wrap loop itself is the claimed greedy wrap: with a nonzero column
width (and no 32-bit wraparound in reach) its output renders the
spec-modelled chunking - leading spaces skipped at each wrap point,
each chunk cut at the column width - with every continuation line
re-indented to the start column, every chunk at most the column width
long, and no chunk beginning with a space. -/
theorem c9_wrap_layout :
    (∀ (iF w L : Nat), L ≤ w → w < 4294967296 →
      descPosSel iF w L =
        if (w - L) * 33554432 > w * 10066330 then L % 4294967296 else iF + 2) ∧
    (∀ (iF w L : Nat), w < L → L ≤ 4294967296 → descPosSel iF w L = L % 4294967296) ∧
    (∀ (d : List Char) (descPos cw : Nat), 1 ≤ cw → d.length + cw < 2147483648 →
      wrapEmit d descPos cw (d.length + 2) 0 = specRender descPos (specWrap cw d)) ∧
    (∀ (cw fuel : Nat) (l : List Char), 1 ≤ cw → l.length ≤ fuel →
      ∀ ch ∈ specWrapGo cw fuel l, ch.length ≤ cw) ∧
    (∀ (cw fuel : Nat) (l ch : List Char) (c : Char),
      ch ∈ specWrapGo cw fuel l → ch.head? = some c → c ≠ ' ') := by
  refine ⟨?_, ?_, ?_, ?_, ?_⟩
  · intro iF w L hLw hw
    unfold descPosSel
    rw [show wrapSub 18446744073709551616 w L = w - L from by unfold wrapSub; omega]
  · intro iF w L hwL hL
    unfold descPosSel
    rw [show wrapSub 18446744073709551616 w L = w + 18446744073709551616 - L from by
      unfold wrapSub; omega]
    rw [if_pos (by omega)]
  · intro d descPos cw hcw hbig
    have h := wrapEmit_spec d descPos cw hcw hbig (d.length + 1) 0 (by omega) (by omega)
    simp only [List.drop_zero, Nat.cast_zero] at h
    rw [show d.length + 2 = d.length + 1 + 1 from rfl]
    rw [h]
    unfold specWrap
    rw [specWrapGo_fuel cw hcw (d.length + 1) d d.length (by omega) (by omega)]
  · intro cw fuel l hcw hl
    exact specWrapGo_chunk_le cw hcw fuel l hl
  · intro cw fuel l ch c hch hh
    exact specWrapGo_head_not_space cw fuel l ch c hch hh

/-- C9 (witness): the wrap equivalence on `"abc def"` with column width
5 and start column 3 (chunks `"abc d"`, `"ef"`), the chunk-length
bound, and the wraparound branch at width 80 with a 99-column prefix. -/
theorem c9_wrap_layout_witness :
    descPosSel 2 80 99 = 99 % 4294967296 ∧
    wrapEmit "abc def".data 3 5 ("abc def".data.length + 2) 0 =
      specRender 3 (specWrap 5 "abc def".data) ∧
    (∀ ch ∈ specWrapGo 5 7 "abc def".data, ch.length ≤ 5) :=
  ⟨c9_wrap_layout.2.1 2 80 99 (by decide) (by decide),
   c9_wrap_layout.2.2.1 "abc def".data 3 5 (by decide) (by decide),
   c9_wrap_layout.2.2.2.1 5 7 "abc def".data (by decide) (by decide)⟩
